import Mathlib

/-!
Verification of the markdown WYSIWYG editor's webview engine.

The TypeScript source operates on JavaScript strings; we embed it over
`List Char` (`Str`).  Every definition below is a direct transcription of
the corresponding function in `src/webview/main.ts` (the renderer, the
inline styler, the extraction, the cursor mapper, the line-type machinery
from the extended webview module).  JS global-regex replacements are
realised as fueled left-to-right scanners: a scanner either matches the
regex at the current position (consuming at least one character) or
copies one character and moves on, which is exactly the semantics of
`String.prototype.replace` with a `g`-flag regex.
-/

set_option maxRecDepth 100000

namespace MdEditor

abbrev Str := List Char

/-- Character data of a string literal. -/
def str (s : String) : Str := s.data

/-! ## Character classes (mirroring the JS regex classes used in main.ts) -/

/-- ASCII digit, the JS regex class `\d`. -/
def isAsciiDigit (c : Char) : Bool := '0' ≤ c && c ≤ '9'

/-- ASCII letter. -/
def isAsciiAlpha (c : Char) : Bool := ('a' ≤ c && c ≤ 'z') || ('A' ≤ c && c ≤ 'Z')

/-- The JS class `[a-zA-Z0-9]` used by the `__bold__` lookarounds. -/
def isAlnumA (c : Char) : Bool := isAsciiAlpha c || isAsciiDigit c

/-- The JS class `\w`, i.e. `[A-Za-z0-9_]`. -/
def isWordC (c : Char) : Bool := isAlnumA c || c = '_'

/-- The JS class `\s` (whitespace as matched by JavaScript regexes). -/
def isJsSpace (c : Char) : Bool :=
  c = ' ' || c = '\t' || c = '\n' || c = '\u000B' || c = '\u000C' || c = '\r' ||
  c = '\u00A0' || c = '\u1680' || (0x2000 ≤ c.val && c.val ≤ 0x200A) ||
  c = '\u2028' || c = '\u2029' || c = '\u202F' || c = '\u205F' || c = '\u3000' ||
  c = '\uFEFF'

/-- JS line terminators, the characters that `.` does not match. -/
def isLineTermC (c : Char) : Bool :=
  c = '\n' || c = '\r' || c = '\u2028' || c = '\u2029'

/-- True when no character of `s` is a JS line terminator. -/
def noLineTerm (s : Str) : Bool := s.all (fun c => !(isLineTermC c))

/-! ## Generic list helpers -/

/-- `startsL p s` holds when `p` is a prefix of `s` (JS `startsWith`). -/
def startsL : Str → Str → Bool
  | [], _ => true
  | _ :: _, [] => false
  | p :: ps, c :: cs => p == c && startsL ps cs

/-- `endsL p s` holds when `p` is a suffix of `s` (JS `endsWith`). -/
def endsL (p s : Str) : Bool := startsL p.reverse s.reverse

/-- Substring containment test. -/
def containsSub : Str → Str → Bool
  | [], pat => startsL pat []
  | c :: cs, pat => startsL pat (c :: cs) || containsSub cs pat

/-- JS `String.prototype.slice(a, b)` for `0 ≤ a ≤ b`. -/
def sliceJs (l : Str) (a b : Nat) : Str := (l.drop a).take (b - a)

/-- Case-insensitive prefix test against an all-lowercase pattern. -/
def ciStarts : Str → Str → Bool
  | [], _ => true
  | _ :: _, [] => false
  | p :: ps, c :: cs => p == c.toLower && ciStarts ps cs

/-! ## Line splitting and joining (JS `split('\n')` / `join('\n')`) -/

/-- Prepend a character onto the first line of a line list. -/
def consHead (c : Char) : List Str → List Str
  | [] => [[c]]
  | h :: t => (c :: h) :: t

/-- Split on newline characters; always returns at least one line. -/
def splitLines : Str → List Str
  | [] => [[]]
  | c :: r => if c = '\n' then [] :: splitLines r else consHead c (splitLines r)

/-- Join with newline separators. -/
def joinLines : List Str → Str
  | [] => []
  | l :: ls =>
    match ls with
    | [] => l
    | _ :: _ => l ++ '\n' :: joinLines ls

/-- Split on an arbitrary separator character (JS `split(c)`). -/
def splitOnC (sep : Char) : Str → List Str
  | [] => [[]]
  | c :: r => if c = sep then [] :: splitOnC sep r else consHead c (splitOnC sep r)

/-- Join a list of pieces with a fixed separator string. -/
def joinWith (sep : Str) : List Str → Str
  | [] => []
  | l :: ls =>
    match ls with
    | [] => l
    | _ :: _ => l ++ sep ++ joinWith sep ls

/-- Trim (JS `trim()`), removing JS whitespace from both ends. -/
def trimJs (s : Str) : Str := ((s.dropWhile isJsSpace).reverse.dropWhile isJsSpace).reverse

/-- Trim only the end (JS `trimEnd()`). -/
def trimEndJs (s : Str) : Str := (s.reverse.dropWhile isJsSpace).reverse

/-! ## Decimal rendering of numbers (JS template `${n}`) -/

/-- Character for a digit value below ten. -/
def digitChar (n : Nat) : Char := Char.ofNat (48 + n)

/-- Fueled decimal digits accumulator. -/
def natDigitsF : Nat → Nat → Str
  | 0, _ => []
  | fuel + 1, n => if n < 10 then [digitChar n] else natDigitsF fuel (n / 10) ++ [digitChar (n % 10)]

/-- Decimal digit string of a natural number. -/
def natDigits (n : Nat) : Str := natDigitsF (n + 1) n

/-- Parse a digit string back to a number (JS `parseInt(s, 10)` on digit-only input). -/
def digitsToNat (s : Str) : Nat := s.foldl (fun acc c => acc * 10 + (c.toNat - 48)) 0


/-! ## Escaper (`escapeHtml`, main.ts lines 407-414)

JS performs five sequential global single-character replacements, ampersand
first.  `repC c r` is one such replacement. -/

/-- Replace every occurrence of the character `c` by the string `r`. -/
def repC (c : Char) (r : Str) : Str → Str
  | [] => []
  | x :: xs => (if x = c then r else [x]) ++ repC c r xs

/-- `escapeHtml`: `& < > " '` to named entities, ampersand first. -/
def escapeHtml (s : Str) : Str :=
  repC '\'' (str "&#39;") (repC '"' (str "&quot;")
    (repC '>' (str "&gt;") (repC '<' (str "&lt;") (repC '&' (str "&amp;") s))))

/-! ## Inline styler (`styleInline`, main.ts lines 300-404)

Each global regex replacement becomes a scanner: `runScan` walks the string
left to right; at each position the matcher either recognises the regex
(returning the number of consumed characters, at least one, and the
replacement) or the scanner copies one character.  Fuel equal to the input
length suffices since every step consumes at least one character. -/

/-- The escapable-punctuation class of `/\\([*_`\[\]()#+-\.!\\])/` (the
`+-\.` range also contains the comma). -/
def escCls (c : Char) : Bool :=
  c = '*' || c = '_' || c = '`' || c = '[' || c = ']' || c = '(' || c = ')' ||
  c = '#' || c = '+' || c = ',' || c = '-' || c = '.' || c = '!' || c = '\\'

/-- The placeholder delimiter `'\u0000ESC\u0000'`. -/
def escPH : Str := ['\x00', 'E', 'S', 'C', '\x00']

/-- Step 1 of `styleInline`: pull out backslash-escaped punctuation,
emitting `escPH ++ digits k ++ escPH` placeholders and collecting the
escaped characters in order. -/
def extractEscapes : Str → Nat → (Str × List Char)
  | [], _ => ([], [])
  | [c], _ => ([c], [])
  | c :: d :: rest2, k =>
    if c = '\\' then
      if escCls d then
        let p := extractEscapes rest2 (k + 1)
        (escPH ++ natDigits k ++ escPH ++ p.1, d :: p.2)
      else
        let p := extractEscapes (d :: rest2) k
        ('\\' :: p.1, p.2)
    else
      let p := extractEscapes (d :: rest2) k
      (c :: p.1, p.2)

/-- Generic scanner for a `g`-flag regex replacement without lookbehind. -/
def runScan (m : Str → Option (Nat × Str)) : Nat → Str → Str
  | 0, s => s
  | _ + 1, [] => []
  | fuel + 1, c :: rest =>
    match m (c :: rest) with
    | some (k, rep) => rep ++ runScan m fuel ((c :: rest).drop k)
    | none => c :: runScan m fuel rest

/-- Run a scanner over the whole string. -/
def scanAll (m : Str → Option (Nat × Str)) (s : Str) : Str := runScan m s.length s

/-- Scanner for patterns with a one-character lookbehind: the matcher also
receives the previous character of the input (`none` at the start). -/
def runScanPrev (m : Option Char → Str → Option (Nat × Str)) :
    Nat → Option Char → Str → Str
  | 0, _, s => s
  | _ + 1, _, [] => []
  | fuel + 1, prev, c :: rest =>
    match m prev (c :: rest) with
    | some (k, rep) =>
      rep ++ runScanPrev m fuel (((c :: rest).take k).getLast?) ((c :: rest).drop k)
    | none => c :: runScanPrev m fuel (some c) rest

/-- Run a lookbehind scanner from the start of the string. -/
def scanPrevAll (m : Option Char → Str → Option (Nat × Str)) (s : Str) : Str :=
  runScanPrev m s.length none s

/-- Images `!\[([^\]]*)\]\(([^)]+)\)`. -/
def mImage (s : Str) : Option (Nat × Str) :=
  match s with
  | [] => none
  | c :: r =>
    if c = '!' then
      match r with
      | '[' :: r1 =>
        let alt := r1.takeWhile (fun x => x ≠ ']')
        match r1.dropWhile (fun x => x ≠ ']') with
        | ']' :: '(' :: r3 =>
          let url := r3.takeWhile (fun x => x ≠ ')')
          match url, r3.dropWhile (fun x => x ≠ ')') with
          | _ :: _, ')' :: _ =>
            some (2 + alt.length + 2 + url.length + 1,
              str "<span class=\"md-image\"><span class=\"md-syntax\">![</span><span class=\"md-alt\">"
                ++ alt ++ str "</span><span class=\"md-syntax\">](</span><span class=\"md-url\">"
                ++ url ++ str "</span><span class=\"md-syntax\">)</span></span>")
          | _, _ => none
        | _ => none
      | _ => none
    else none

/-- Footnote references `\[\^([^\]]+)\]`. -/
def mFootnoteRef (s : Str) : Option (Nat × Str) :=
  match s with
  | [] => none
  | c :: r =>
    if c = '[' then
      match r with
      | '^' :: r1 =>
        let id := r1.takeWhile (fun x => x ≠ ']')
        match id, r1.dropWhile (fun x => x ≠ ']') with
        | _ :: _, ']' :: _ =>
          some (2 + id.length + 1,
            str "<span class=\"md-footnote\"><span class=\"md-syntax\">[^</span>"
              ++ id ++ str "<span class=\"md-syntax\">]</span></span>")
        | _, _ => none
      | _ => none
    else none

/-- Links `\[([^\]]+)\]\(([^)]+)\)`. -/
def mLink (s : Str) : Option (Nat × Str) :=
  match s with
  | [] => none
  | c :: r =>
    if c = '[' then
      let txt := r.takeWhile (fun x => x ≠ ']')
      match txt, r.dropWhile (fun x => x ≠ ']') with
      | _ :: _, ']' :: '(' :: r3 =>
        let url := r3.takeWhile (fun x => x ≠ ')')
        match url, r3.dropWhile (fun x => x ≠ ')') with
        | _ :: _, ')' :: _ =>
          some (1 + txt.length + 2 + url.length + 1,
            str "<span class=\"md-link\"><span class=\"md-syntax\">[</span><span class=\"md-text\">"
              ++ txt ++ str "</span><span class=\"md-syntax\">](</span><span class=\"md-url\">"
              ++ url ++ str "</span><span class=\"md-syntax\">)</span></span>")
        | _, _ => none
      | _, _ => none
    else none

/-- Find the leftmost occurrence of `close` in the string, returning the
characters before it (which must all be matchable by `.`, i.e. not line
terminators) and the remainder after it. -/
def searchClose (close : Str) : Str → Option (Str × Str)
  | [] => none
  | c :: rest =>
    if startsL close (c :: rest) then some ([], (c :: rest).drop close.length)
    else if isLineTermC c then none
    else
      match searchClose close rest with
      | some (a, b) => some (c :: a, b)
      | none => none

/-- Lazy `(.+?)` closed by `close`: at least one inner character, then the
earliest occurrence of `close`. -/
def lazyClose (close : Str) : Str → Option (Str × Str)
  | [] => none
  | c :: rest =>
    if isLineTermC c then none
    else
      match searchClose close rest with
      | some (a, b) => some (c :: a, b)
      | none => none

/-- Bold italic `\*\*\*(.+?)\*\*\*`. -/
def mTriple (s : Str) : Option (Nat × Str) :=
  match s with
  | [] => none
  | c :: r =>
    if c = '*' then
      match r with
      | '*' :: '*' :: r3 =>
        match lazyClose (str "***") r3 with
        | some (inner, _) =>
          some (3 + inner.length + 3,
            str "<span class=\"md-bold-italic\"><span class=\"md-syntax\">\x01\x01\x01</span><strong><em>"
              ++ inner ++ str "</em></strong><span class=\"md-syntax\">\x01\x01\x01</span></span>")
        | none => none
      | _ => none
    else none

/-- Bold `\*\*(.+?)\*\*`. -/
def mBold (s : Str) : Option (Nat × Str) :=
  match s with
  | [] => none
  | c :: r =>
    if c = '*' then
      match r with
      | '*' :: r2 =>
        match lazyClose (str "**") r2 with
        | some (inner, _) =>
          some (2 + inner.length + 2,
            str "<span class=\"md-bold\"><span class=\"md-syntax\">\x01\x01</span><strong>"
              ++ inner ++ str "</strong><span class=\"md-syntax\">\x01\x01</span></span>")
        | none => none
      | _ => none
    else none

/-- Search for the closing `__` of `(?<![a-zA-Z0-9])__(.+?)__(?![a-zA-Z0-9])`:
the earliest `__` whose following character is not alphanumeric; a `__`
failing the lookahead is swallowed into the lazy group one character at a
time, exactly as the backtracking engine does. -/
def searchCloseU : Str → Option (Str × Str)
  | [] => none
  | c :: rest =>
    if c = '_' then
      match rest with
      | '_' :: r2 =>
        if (match r2 with | [] => true | d :: _ => !isAlnumA d) then some ([], r2)
        else
          match searchCloseU rest with
          | some (a, b) => some (c :: a, b)
          | none => none
      | _ =>
        match searchCloseU rest with
        | some (a, b) => some (c :: a, b)
        | none => none
    else if isLineTermC c then none
    else
      match searchCloseU rest with
      | some (a, b) => some (c :: a, b)
      | none => none

/-- The lazy group of the `__bold__` pattern (at least one character). -/
def lazyCloseU : Str → Option (Str × Str)
  | [] => none
  | c :: rest =>
    if isLineTermC c then none
    else
      match searchCloseU rest with
      | some (a, b) => some (c :: a, b)
      | none => none

/-- Bold `(?<![a-zA-Z0-9])__(.+?)__(?![a-zA-Z0-9])`. -/
def mUBold (prev : Option Char) (s : Str) : Option (Nat × Str) :=
  match s with
  | [] => none
  | c :: r =>
    if c = '_' then
      match r with
      | '_' :: r2 =>
        if (match prev with | some p => isAlnumA p | none => false) then none
        else
          match lazyCloseU r2 with
          | some (inner, _) =>
            some (2 + inner.length + 2,
              str "<span class=\"md-bold\"><span class=\"md-syntax\">\x02\x02</span><strong>"
                ++ inner ++ str "</strong><span class=\"md-syntax\">\x02\x02</span></span>")
          | none => none
      | _ => none
    else none

/-- Italic `(?<!\*)\*([^*]+)\*(?!\*)`. -/
def mItalicAst (prev : Option Char) (s : Str) : Option (Nat × Str) :=
  match s with
  | [] => none
  | c :: r =>
    if c = '*' then
      if (match prev with | some p => p == '*' | none => false) then none
      else
        let inner := r.takeWhile (fun x => x ≠ '*')
        match inner, r.dropWhile (fun x => x ≠ '*') with
        | _ :: _, '*' :: r2 =>
          if (match r2 with | '*' :: _ => true | _ => false) then none
          else
            some (1 + inner.length + 1,
              str "<span class=\"md-italic\"><span class=\"md-syntax\">\x01</span><em>"
                ++ inner ++ str "</em><span class=\"md-syntax\">\x01</span></span>")
        | _, _ => none
    else none

/-- Italic `(?<!_)_([^_]+)_(?!_)`. -/
def mItalicU (prev : Option Char) (s : Str) : Option (Nat × Str) :=
  match s with
  | [] => none
  | c :: r =>
    if c = '_' then
      if (match prev with | some p => p == '_' | none => false) then none
      else
        let inner := r.takeWhile (fun x => x ≠ '_')
        match inner, r.dropWhile (fun x => x ≠ '_') with
        | _ :: _, '_' :: r2 =>
          if (match r2 with | '_' :: _ => true | _ => false) then none
          else
            some (1 + inner.length + 1,
              str "<span class=\"md-italic\"><span class=\"md-syntax\">\x02</span><em>"
                ++ inner ++ str "</em><span class=\"md-syntax\">\x02</span></span>")
        | _, _ => none
    else none

/-- Inline code `` `([^`]+)` ``. -/
def mCode (s : Str) : Option (Nat × Str) :=
  match s with
  | [] => none
  | c :: r =>
    if c = '`' then
      let inner := r.takeWhile (fun x => x ≠ '`')
      match inner, r.dropWhile (fun x => x ≠ '`') with
      | _ :: _, '`' :: _ =>
        some (1 + inner.length + 1,
          str "<span class=\"md-code\"><span class=\"md-syntax\">`</span><code>"
            ++ inner ++ str "</code><span class=\"md-syntax\">`</span></span>")
      | _, _ => none
    else none

/-- Inline math `\$([^$]+)\$`. -/
def mMath (s : Str) : Option (Nat × Str) :=
  match s with
  | [] => none
  | c :: r =>
    if c = '$' then
      let inner := r.takeWhile (fun x => x ≠ '$')
      match inner, r.dropWhile (fun x => x ≠ '$') with
      | _ :: _, '$' :: _ =>
        some (1 + inner.length + 1,
          str "<span class=\"md-math\"><span class=\"md-syntax\">$</span><span class=\"md-math-content\">"
            ++ inner ++ str "</span><span class=\"md-syntax\">$</span></span>")
      | _, _ => none
    else none

/-- Strikethrough `~~([^~]+)~~`. -/
def mStrike (s : Str) : Option (Nat × Str) :=
  match s with
  | [] => none
  | c :: r =>
    if c = '~' then
      match r with
      | '~' :: r2 =>
        let inner := r2.takeWhile (fun x => x ≠ '~')
        match inner, r2.dropWhile (fun x => x ≠ '~') with
        | _ :: _, '~' :: '~' :: _ =>
          some (2 + inner.length + 2,
            str "<span class=\"md-strike\"><span class=\"md-syntax\">~~</span><del>"
              ++ inner ++ str "</del><span class=\"md-syntax\">~~</span></span>")
        | _, _ => none
      | _ => none
    else none

/-- Final restoration pass: `escPH(\d+)escPH` becomes a visible escaped
span.  (On an index outside `escapedChars` the JS code would fault on
`undefined`; that cannot happen for placeholders produced by
`extractEscapes`, and the model returns U+FFFD there.) -/
def mRestoreEsc (escapedChars : List Char) (s : Str) : Option (Nat × Str) :=
  match s with
  | [] => none
  | c :: _ =>
    if c = '\x00' then
      if startsL escPH s then
        let r := s.drop 5
        let ds := r.takeWhile isAsciiDigit
        match ds with
        | [] => none
        | _ :: _ =>
          if startsL escPH (r.drop ds.length) then
            some (5 + ds.length + 5,
              str "<span class=\"md-escaped\"><span class=\"md-syntax\">\\</span>"
                ++ escapeHtml [escapedChars.getD (digitsToNat ds) '�']
                ++ str "</span>")
          else none
      else none
    else none

/-- `styleInline` (main.ts lines 300-404): the full ordered pipeline. -/
def styleInline (text : Str) : Str :=
  match text with
  | [] => []
  | _ :: _ =>
    let e := extractEscapes text 0
    let r1 := escapeHtml e.1
    let r2 := scanAll mImage r1
    let r3 := scanAll mFootnoteRef r2
    let r4 := scanAll mLink r3
    let r5 := scanAll mTriple r4
    let r6 := scanAll mBold r5
    let r7 := scanPrevAll mUBold r6
    let r8 := scanPrevAll mItalicAst r7
    let r9 := scanPrevAll mItalicU r8
    let r10 := repC '\x01' ['*'] r9
    let r11 := repC '\x02' ['_'] r10
    let r12 := scanAll mCode r11
    let r13 := scanAll mMath r12
    let r14 := scanAll mStrike r13
    scanAll (mRestoreEsc e.2) r14


/-! ## Line classifier and renderer (`styleLine`, main.ts lines 202-297) -/

/-- Heading pattern `^(#{1,6})\s(.*)$`: returns the level and the text
after the single whitespace character. -/
def headingMatch (line : Str) : Option (Nat × Str) :=
  let hs := line.takeWhile (fun c => c == '#')
  let n := hs.length
  if 1 ≤ n ∧ n ≤ 6 then
    match line.drop n with
    | c :: rest => if isJsSpace c && noLineTerm rest then some (n, rest) else none
    | [] => none
  else none

/-- Case-insensitive alert type at the head of the string, in the
alternation order of the source regex.  Returns (upper, lower) names. -/
def findAlertType (r2 : Str) : Option (Str × Str) :=
  if ciStarts (str "note") r2 then some (str "NOTE", str "note")
  else if ciStarts (str "tip") r2 then some (str "TIP", str "tip")
  else if ciStarts (str "important") r2 then some (str "IMPORTANT", str "important")
  else if ciStarts (str "warning") r2 then some (str "WARNING", str "warning")
  else if ciStarts (str "caution") r2 then some (str "CAUTION", str "caution")
  else none

/-- Alert header without end anchor, `/^>\s*\[!(NOTE|TIP|IMPORTANT|WARNING|CAUTION)\]/i`
(used by `isBlockquoteLine` and the line-type table). -/
def alertHeadMatch (line : Str) : Option (Str × Str) :=
  match line with
  | [] => none
  | c :: r =>
    if c = '>' then
      match r.dropWhile isJsSpace with
      | '[' :: '!' :: r2 =>
        match findAlertType r2 with
        | some (u, l) =>
          match r2.drop l.length with
          | ']' :: _ => some (u, l)
          | _ => none
        | none => none
      | _ => none
    else none

/-- Full-line alert header `/^>\s*\[!(NOTE|TIP|IMPORTANT|WARNING|CAUTION)\]\s*$/i`. -/
def alertFullMatch (line : Str) : Option (Str × Str) :=
  match line with
  | [] => none
  | c :: r =>
    if c = '>' then
      match r.dropWhile isJsSpace with
      | '[' :: '!' :: r2 =>
        match findAlertType r2 with
        | some (u, l) =>
          match r2.drop l.length with
          | ']' :: r3 => if r3.all isJsSpace then some (u, l) else none
          | _ => none
        | none => none
      | _ => none
    else none

/-- Blockquote pattern `^(>+)\s?(.*)$`: depth of the marker run and the
content after the optional single whitespace. -/
def quoteMatch (line : Str) : Option (Nat × Str) :=
  let ms := line.takeWhile (fun c => c == '>')
  match ms with
  | [] => none
  | _ :: _ =>
    match line.drop ms.length with
    | [] => some (ms.length, [])
    | c :: t =>
      if isJsSpace c && noLineTerm t then some (ms.length, t)
      else if noLineTerm (c :: t) then some (ms.length, c :: t)
      else none

/-- Unordered-list markers `[-*+]`. -/
def isUlMarker (c : Char) : Bool := c = '-' || c = '*' || c = '+'

/-- Task checkbox states `[ xX]`. -/
def isCheckC (c : Char) : Bool := c = ' ' || c = 'x' || c = 'X'

/-- Task pattern `^(\s*)([-*+])\s\[([ xX])\]\s(.*)$`. -/
def taskMatch (line : Str) : Option (Str × Char × Char × Str) :=
  let ind := line.takeWhile isJsSpace
  match line.drop ind.length with
  | [] => none
  | m :: r1 =>
    if isUlMarker m then
      match r1 with
      | s1 :: '[' :: c :: ']' :: s2 :: content =>
        if isJsSpace s1 && isCheckC c && isJsSpace s2 && noLineTerm content then
          some (ind, m, c, content)
        else none
      | _ => none
    else none

/-- Unordered list pattern `^(\s*)([-*+])\s(.*)$`. -/
def ulMatch (line : Str) : Option (Str × Char × Str) :=
  let ind := line.takeWhile isJsSpace
  match line.drop ind.length with
  | [] => none
  | m :: r1 =>
    if isUlMarker m then
      match r1 with
      | s :: content =>
        if isJsSpace s && noLineTerm content then some (ind, m, content) else none
      | [] => none
    else none

/-- Ordered list pattern `^(\s*)(\d+\.)\s(.*)$`; the digit run is returned
without the dot. -/
def olMatch (line : Str) : Option (Str × Str × Str) :=
  let ind := line.takeWhile isJsSpace
  let after := line.drop ind.length
  let ds := after.takeWhile isAsciiDigit
  match ds with
  | [] => none
  | _ :: _ =>
    match after.drop ds.length with
    | c :: r1 =>
      if c = '.' then
        match r1 with
        | s :: content =>
          if isJsSpace s && noLineTerm content then some (ind, ds, content) else none
        | [] => none
      else none
    | [] => none

/-- Horizontal-rule characters. -/
def hrChar (c : Char) : Bool := c = '-' || c = '_' || c = '*'

/-- `styleLine`'s rule test: `/^(-{3,}|_{3,}|\*{3,})$/.test(line.trim())`. -/
def hrLineTest (line : Str) : Bool :=
  let t := trimJs line
  match t with
  | [] => false
  | c :: _ => hrChar c && decide (3 ≤ t.length) && t.all (fun x => x == c)

/-- Table row pattern `^\|(.+)\|$`. -/
def tableTest (line : Str) : Bool :=
  match line with
  | [] => false
  | c :: r =>
    c = '|' &&
    (match r.getLast? with | some x => x == '|' | none => false) &&
    decide (2 ≤ r.length) && noLineTerm r.dropLast

/-- Separator-cell test `^[\s:-]+$`. -/
def sepCell (cell : Str) : Bool :=
  !cell.isEmpty && cell.all (fun c => isJsSpace c || c = ':' || c = '-')

/-- Definition pattern `^:\s(.*)$`. -/
def defMatch (line : Str) : Option Str :=
  match line with
  | [] => none
  | c :: r1 =>
    if c = ':' then
      match r1 with
      | s :: content => if isJsSpace s && noLineTerm content then some content else none
      | [] => none
    else none

/-- Footnote definition pattern `^\[\^([^\]]+)\]:\s(.*)$`. -/
def footnoteDefMatch (line : Str) : Option (Str × Str) :=
  match line with
  | [] => none
  | c :: r1 =>
    if c = '[' then
      match r1 with
      | '^' :: r2 =>
        let id := r2.takeWhile (fun x => x ≠ ']')
        match id, r2.drop id.length with
        | _ :: _, ']' :: ':' :: s :: content =>
          if isJsSpace s && noLineTerm content then some (id, content) else none
        | _, _ => none
      | _ => none
    else none

/-- `styleLine` (main.ts lines 202-297): the ordered classifier cascade,
first match wins, paragraph default. -/
def styleLine (line : Str) : Str :=
  match line with
  | [] => []
  | _ :: _ =>
    match headingMatch line with
    | some (level, text) =>
      str "<span class=\"md-heading md-h" ++ natDigits level ++ str "\"><span class=\"md-syntax\">"
        ++ List.replicate level '#' ++ str "</span> " ++ styleInline text ++ str "</span>"
    | none =>
    match alertFullMatch line with
    | some (u, l) =>
      str "<span class=\"md-alert md-alert-" ++ l
        ++ str "\"><span class=\"md-syntax\">&gt; [!</span><span class=\"md-alert-type\">"
        ++ u ++ str "</span><span class=\"md-syntax\">]</span></span>"
    | none =>
    match quoteMatch line with
    | some (depth, content) =>
      str "<span class=\"md-blockquote md-quote-" ++ natDigits depth
        ++ str "\"><span class=\"md-syntax\">" ++ escapeHtml (List.replicate depth '>')
        ++ str "</span> " ++ styleInline content ++ str "</span>"
    | none =>
    match taskMatch line with
    | some (ind, m, c, content) =>
      escapeHtml ind ++ str "<span class=\"md-task "
        ++ (if c.toLower == 'x' then str "md-task-checked" else str "md-task-unchecked")
        ++ str "\"><span class=\"md-syntax\">" ++ [m] ++ str " [" ++ [c] ++ str "]</span> "
        ++ styleInline content ++ str "</span>"
    | none =>
    match ulMatch line with
    | some (ind, m, content) =>
      escapeHtml ind ++ str "<span class=\"md-list\"><span class=\"md-syntax\">" ++ [m]
        ++ str "</span> " ++ styleInline content ++ str "</span>"
    | none =>
    match olMatch line with
    | some (ind, ds, content) =>
      escapeHtml ind ++ str "<span class=\"md-list\"><span class=\"md-syntax\">" ++ ds ++ ['.']
        ++ str "</span> " ++ styleInline content ++ str "</span>"
    | none =>
    if hrLineTest line then
      str "<span class=\"md-hr\"><span class=\"md-hr-text\">" ++ escapeHtml line ++ str "</span></span>"
    else if tableTest line then
      let cells := ((splitOnC '|' line).drop 1).dropLast
      let styledCells := cells.map (fun cell =>
        if sepCell cell then str "<span class=\"md-table-sep\">" ++ escapeHtml cell ++ str "</span>"
        else styleInline cell)
      str "<span class=\"md-table\"><span class=\"md-syntax\">|</span>"
        ++ joinWith (str "<span class=\"md-syntax\">|</span>") styledCells
        ++ str "<span class=\"md-syntax\">|</span></span>"
    else
    match defMatch line with
    | some content =>
      str "<span class=\"md-definition\"><span class=\"md-syntax\">:</span> "
        ++ styleInline content ++ str "</span>"
    | none =>
    match footnoteDefMatch line with
    | some (id, content) =>
      str "<span class=\"md-footnote-def\"><span class=\"md-syntax\">[^" ++ escapeHtml id
        ++ str "]:</span> " ++ styleInline content ++ str "</span>"
    | none => styleInline line

/-! ## Document renderer (`markdownToStyledHtml`, main.ts lines 45-199) -/

/-- The per-line classification record of the renderer's first pass. -/
structure LineInfo where
  line : Str
  isBlockquote : Bool := false
  blockquoteDepth : Nat := 0
  isAlertHeader : Bool := false
  isAlertContent : Bool := false
  isCodeFence : Bool := false
  isCodeContent : Bool := false
  alertType : Option Str := none
  deriving Repr, DecidableEq

instance : Inhabited LineInfo := ⟨{ line := [] }⟩

/-- `isBlockquoteLine` (main.ts lines 26-36): starts with `>` but is not a
GitHub alert header. -/
def isBlockquoteLine (line : Str) : Bool :=
  (match line with | c :: _ => c == '>' | [] => false) && !(alertHeadMatch line).isSome

/-- `getBlockquoteDepth` (main.ts lines 39-42). -/
def getBlockquoteDepth (line : Str) : Nat :=
  (line.takeWhile (fun c => c == '>')).length

/-- A line opening or closing a code fence: `line.startsWith('```')`. -/
def fenceLine (line : Str) : Bool := startsL (str "```") line

/-- Info for a line that is neither fence, code content, nor alert. -/
def mkPlainInfo (line : Str) : LineInfo :=
  if isBlockquoteLine line then
    { line := line, isBlockquote := true, blockquoteDepth := getBlockquoteDepth line }
  else { line := line }

/-- First renderer pass (main.ts lines 60-122): line classification with
the code-fence toggle and the current-alert state threaded through. -/
def pass1 : List Str → Bool → Option Str → List LineInfo
  | [], _, _ => []
  | line :: rest, inCode, curAlert =>
    if fenceLine line then
      { line := line, isCodeFence := true } :: pass1 rest (!inCode) none
    else if inCode then
      { line := line, isCodeContent := true } :: pass1 rest inCode curAlert
    else
      match alertFullMatch line with
      | some (_, l) =>
        { line := line, isAlertHeader := true, alertType := some l } :: pass1 rest inCode (some l)
      | none =>
        match curAlert with
        | some t =>
          if (match line with | c :: _ => c == '>' | [] => false) then
            { line := line, isAlertContent := true, alertType := some t }
              :: pass1 rest inCode (some t)
          else mkPlainInfo line :: pass1 rest inCode none
        | none => mkPlainInfo line :: pass1 rest inCode none

/-- The zero-width space used as the caret anchor of empty lines. -/
def zwsp : Char := '​'

/-- Opening fence line markup. -/
def fenceStartHtml (line : Str) : Str :=
  str "<div class=\"line code-fence code-start\"><span class=\"line-content\"><span class=\"code-inner\">```"
    ++ escapeHtml (trimJs (line.drop 3)) ++ str "</span></span></div>"

/-- Closing fence line markup. -/
def fenceEndHtml : Str :=
  str "<div class=\"line code-fence code-end\"><span class=\"line-content\"><span class=\"code-inner\">```</span></span></div>"

/-- Markup of a line inside a code fence. -/
def codeContentHtml (line : Str) : Str :=
  let content := escapeHtml line
  str "<div class=\"line code-content" ++ (if content = [] then str " empty-line" else [])
    ++ str "\"><span class=\"line-content\"><span class=\"code-inner\">"
    ++ (if content = [] then [zwsp] else content) ++ str "</span></span></div>"

/-- Remove the `^>\s?` marker of an alert-content line. -/
def stripAlertCont (line : Str) : Str :=
  match line with
  | [] => []
  | c :: r =>
    if c = '>' then
      match r with
      | d :: r2 => if isJsSpace d then r2 else r
      | [] => []
    else line

/-- Alert header markup. -/
def alertHeaderHtml (info : LineInfo) (next : Option LineInfo) : Str :=
  let p := (alertFullMatch info.line).getD ([], [])
  let isLast := match next with | some n => !n.isAlertContent | none => true
  let classes := str "line md-alert md-alert-" ++ info.alertType.getD []
    ++ str " alert-first" ++ (if isLast then str " alert-last alert-single" else [])
  str "<div class=\"" ++ classes
    ++ str "\"><span class=\"line-content\"><span class=\"alert-inner\"><span class=\"md-syntax\">&gt; [!</span><span class=\"md-alert-type\">"
    ++ p.1 ++ str "</span><span class=\"md-syntax\">]</span></span></span></div>"

/-- Alert continuation markup. -/
def alertContentHtml (info : LineInfo) (next : Option LineInfo) : Str :=
  let isLast := match next with | some n => !n.isAlertContent | none => true
  let classes := str "line md-alert-content md-alert-" ++ info.alertType.getD []
    ++ (if isLast then str " alert-last" else [])
  str "<div class=\"" ++ classes
    ++ str "\"><span class=\"line-content\"><span class=\"alert-inner\"><span class=\"md-syntax\">&gt;</span> "
    ++ styleInline (stripAlertCont info.line) ++ str "</span></span></div>"

/-- Blockquote line markup with grouping classes. -/
def quoteHtml (info : LineInfo) (prev next : Option LineInfo) : Str :=
  let isFirst := match prev with | some p => !p.isBlockquote | none => true
  let isLast := match next with | some n => !n.isBlockquote | none => true
  let depth := min info.blockquoteDepth 3
  let classes := str "line blockquote-line"
    ++ (if isFirst then str " blockquote-first" else [])
    ++ (if isLast then str " blockquote-last" else [])
    ++ (if 1 < depth then str " blockquote-depth-" ++ natDigits depth else [])
  str "<div class=\"" ++ classes ++ str "\"><span class=\"line-content\">"
    ++ styleLine info.line ++ str "</span></div>"

/-- Regular line markup (placeholder on empty styling). -/
def regularHtml (line : Str) : Str :=
  let styled := styleLine line
  str "<div class=\"line" ++ (if styled = [] then str " empty-line" else [])
    ++ str "\"><span class=\"line-content\">" ++ (if styled = [] then [zwsp] else styled)
    ++ str "</span></div>"

/-- Second renderer pass (main.ts lines 125-196): one markup block per
line, with the previous/next infos for group-boundary classes. -/
def pass2 : Option LineInfo → List LineInfo → Bool → List Str
  | _, [], _ => []
  | prev, info :: rest, inCode =>
    if info.isCodeFence then
      (if !inCode then fenceStartHtml info.line else fenceEndHtml)
        :: pass2 (some info) rest (!inCode)
    else if info.isCodeContent then
      codeContentHtml info.line :: pass2 (some info) rest inCode
    else if info.isAlertHeader then
      alertHeaderHtml info rest.head? :: pass2 (some info) rest inCode
    else if info.isAlertContent then
      alertContentHtml info rest.head? :: pass2 (some info) rest inCode
    else if info.isBlockquote then
      quoteHtml info prev rest.head? :: pass2 (some info) rest inCode
    else
      regularHtml info.line :: pass2 (some info) rest inCode

/-- The renderer as a list of per-line markup blocks (the `htmlLines`
array of `markdownToStyledHtml` before the final join). -/
def renderLines (md : Str) : List Str :=
  pass2 none (pass1 (splitLines md) false none) false

/-- `markdownToStyledHtml` (main.ts lines 45-199). -/
def markdownToStyledHtml (md : Str) : Str := (renderLines md).flatten

/-! ## Extraction (`extractMarkdown`, main.ts lines 417-432)

The DOM reads back `textContent` of each line block: markup tags drop
out, the five entities produced by `escapeHtml` decode, everything else
is literal text.  `tcM` is that reader (`true` = inside a tag). -/

/-- Decodable entity at the head of the text after an ampersand: the
decoded character and the number of following characters it spans. -/
def entHead : Str → Option (Char × Nat)
  | 'a' :: 'm' :: 'p' :: ';' :: _ => some ('&', 4)
  | 'l' :: 't' :: ';' :: _ => some ('<', 3)
  | 'g' :: 't' :: ';' :: _ => some ('>', 3)
  | 'q' :: 'u' :: 'o' :: 't' :: ';' :: _ => some ('"', 5)
  | '#' :: '3' :: '9' :: ';' :: _ => some ('\'', 4)
  | _ => none

/-- Reader state: plain text, inside a tag, or skipping the remainder of a
decoded entity. -/
inductive TcState where
  | txt : TcState
  | tag : TcState
  | skip : Nat → TcState
  deriving Repr, DecidableEq

/-- Text content of generated markup, one character per step. -/
def tcS : TcState → Str → Str
  | _, [] => []
  | .skip n, _ :: r => if n ≤ 1 then tcS .txt r else tcS (.skip (n - 1)) r
  | .tag, c :: r => if c = '>' then tcS .txt r else tcS .tag r
  | .txt, c :: r =>
    if c = '<' then tcS .tag r
    else if c = '&' then
      match entHead r with
      | some (ch, n) => ch :: tcS (.skip n) r
      | none => '&' :: tcS .txt r
    else c :: tcS .txt r

/-- `textContent` of one line block. -/
def textContentL (s : Str) : Str := tcS .txt s

/-- Remove zero-width spaces, `replace(/​/g, '')`. -/
def removeZWSP (s : Str) : Str := s.filter (fun c => c != zwsp)

/-- Extracted raw text of one line block. -/
def extractLine (h : Str) : Str := removeZWSP (textContentL h)

/-- `extractMarkdown`: per-line text contents joined with newlines. -/
def extractMarkdown (htmls : List Str) : Str := joinLines (htmls.map extractLine)

/-- Trailing-whitespace normalization of a document. -/
def normalizeTrail (s : Str) : Str := joinLines ((splitLines s).map trimEndJs)


/-! ## Line-type table (`LINE_TYPES` / `getLineType`, extended webview
module lines 80-112; order matters, first match wins) -/

/-- Heading detector `^#{k}\s` for a fixed `k`. -/
def matchHn (k : Nat) (l : Str) : Bool :=
  startsL (List.replicate k '#') l &&
  (match l.drop k with | c :: _ => isJsSpace c | [] => false)

/-- Rule detector `^(-{3,}|\*{3,}|_{3,})\s*$` (unlike `styleLine`, no trim). -/
def hrTypePat (l : Str) : Bool :=
  match l with
  | [] => false
  | c :: _ =>
    hrChar c &&
    (let run := l.takeWhile (fun x => x == c)
     decide (3 ≤ run.length) && (l.drop run.length).all isJsSpace)

/-- Task detector `^[-*+]\s\[[ xX]\]` (no indent, no trailing requirement). -/
def taskTypePat (l : Str) : Bool :=
  match l with
  | [] => false
  | m :: r1 =>
    isUlMarker m &&
    (match r1 with
     | s :: '[' :: c :: ']' :: _ => isJsSpace s && isCheckC c
     | _ => false)

/-- Bullet detector `^[-*+]\s`. -/
def ulTypePat (l : Str) : Bool :=
  match l with
  | [] => false
  | m :: r1 =>
    isUlMarker m && (match r1 with | s :: _ => isJsSpace s | [] => false)

/-- Ordered detector `^\d+\.\s`. -/
def olTypePat (l : Str) : Bool :=
  let ds := l.takeWhile isAsciiDigit
  !ds.isEmpty &&
  (match l.drop ds.length with
   | c :: r1 => c == '.' && (match r1 with | s :: _ => isJsSpace s | [] => false)
   | [] => false)

/-- Alert detector (case-insensitive, no end anchor). -/
def alertTypePat (l : Str) : Bool := (alertHeadMatch l).isSome

/-- Quote detector `^>`. -/
def quoteTypePat (l : Str) : Bool :=
  match l with | c :: _ => c == '>' | [] => false

/-- Code-fence detector `^```​`. -/
def codeTypePat (l : Str) : Bool := fenceLine l

/-- One entry of the line-type table. -/
structure LineTypeDef where
  type : String
  test : Str → Bool

/-- The ordered detection table. -/
def LINE_TYPES : List LineTypeDef :=
  [⟨"h1", matchHn 1⟩, ⟨"h2", matchHn 2⟩, ⟨"h3", matchHn 3⟩, ⟨"h4", matchHn 4⟩,
   ⟨"h5", matchHn 5⟩, ⟨"h6", matchHn 6⟩, ⟨"hr", hrTypePat⟩, ⟨"task", taskTypePat⟩,
   ⟨"ul", ulTypePat⟩, ⟨"ol", olTypePat⟩, ⟨"alert", alertTypePat⟩,
   ⟨"quote", quoteTypePat⟩, ⟨"code", codeTypePat⟩]

/-- The fallback entry (pattern `^`, always true). -/
def DEFAULT_LINE_TYPE : LineTypeDef := ⟨"paragraph", fun _ => true⟩

/-- `getLineType`: first matching entry, else the default. -/
def getLineType (l : Str) : LineTypeDef :=
  (LINE_TYPES.find? (fun d => d.test l)).getD DEFAULT_LINE_TYPE

/-! ## Line-type transformer (`applyLineType`, extended webview module
lines 1359-1446).  The strip step is a cascade of anchored `replace`
calls, each removing at most one leading marker, in this fixed order. -/

/-- Strip `^(-{3,}|\*{3,}|_{3,})\s*$` (the whole line) when it matches. -/
def stripHr (l : Str) : Str := if hrTypePat l then [] else l

/-- Strip `^#{1,6}\s`. -/
def stripHeading (l : Str) : Str :=
  let hs := l.takeWhile (fun c => c == '#')
  if 1 ≤ hs.length ∧ hs.length ≤ 6 then
    match l.drop hs.length with
    | c :: rest => if isJsSpace c then rest else l
    | [] => l
  else l

/-- Strip `^[-*+]\s\[[ xX]\]\s`. -/
def stripTask (l : Str) : Str :=
  match l with
  | m :: s1 :: '[' :: c :: ']' :: s2 :: rest =>
    if isUlMarker m && isJsSpace s1 && isCheckC c && isJsSpace s2 then rest else l
  | _ => l

/-- Strip `^[-*+]\s`. -/
def stripUl (l : Str) : Str :=
  match l with
  | m :: s :: rest => if isUlMarker m && isJsSpace s then rest else l
  | _ => l

/-- Strip `^\d+\.\s`. -/
def stripOl (l : Str) : Str :=
  let ds := l.takeWhile isAsciiDigit
  match ds with
  | [] => l
  | _ :: _ =>
    match l.drop ds.length with
    | '.' :: s :: rest => if isJsSpace s then rest else l
    | _ => l

/-- Strip `^>+\s?`. -/
def stripQuote (l : Str) : Str :=
  let ms := l.takeWhile (fun c => c == '>')
  match ms with
  | [] => l
  | _ :: _ =>
    match l.drop ms.length with
    | s :: rest => if isJsSpace s then rest else s :: rest
    | [] => []

/-- Strip `^```\w*\s*`. -/
def stripFence (l : Str) : Str :=
  match l with
  | '`' :: '`' :: '`' :: r =>
    let w := r.takeWhile isWordC
    (r.drop w.length).dropWhile isJsSpace
  | _ => l

/-- The full strip cascade, in source order: rule, heading, task, bullet,
ordered, blockquote, fence. -/
def stripMarkers (l : Str) : Str :=
  stripFence (stripQuote (stripOl (stripUl (stripTask (stripHeading (stripHr l))))))

/-- The `switch` of `applyLineType`: prepend the new type's marker to the
stripped line (code wraps in a three-line fence; unknown types leave the
stripped line). -/
def applyLineTypeLine (t : String) (line : Str) : Str :=
  match t with
  | "paragraph" => line
  | "h1" => str "# " ++ line
  | "h2" => str "## " ++ line
  | "h3" => str "### " ++ line
  | "h4" => str "#### " ++ line
  | "h5" => str "##### " ++ line
  | "h6" => str "###### " ++ line
  | "hr" => str "---"
  | "ul" => str "- " ++ line
  | "ol" => str "1. " ++ line
  | "task" => str "- [ ] " ++ line
  | "quote" => str "> " ++ line
  | "code" => str "```" ++ '\n' :: line ++ '\n' :: str "```"
  | _ => line

/-- `applyLineType` on the document text: split, strip-and-retag the
line, rejoin. -/
def applyLineTypeDoc (md : Str) (lineIndex : Nat) (t : String) : Str :=
  let lines := splitLines md
  let line := lines.getD lineIndex []
  joinLines (lines.set lineIndex (applyLineTypeLine t (stripMarkers line)))

/-- Formalisation of the specification's words for the strip step of
`applyLineType` ("strips the current line's leading marker using the same
ordered pattern list as the Classifier ... first-match-only semantics, so
stripping removes exactly the one leading marker that classification
would assign"): remove the text matched by the first matching `LINE_TYPES`
pattern, nothing else. -/
def stripClassifiedOnceSpec (l : Str) : Str :=
  match LINE_TYPES.find? (fun d => d.test l) with
  | none => l
  | some d =>
    match d.type with
    | "h1" => l.drop 2
    | "h2" => l.drop 3
    | "h3" => l.drop 4
    | "h4" => l.drop 5
    | "h5" => l.drop 6
    | "h6" => l.drop 7
    | "hr" => []
    | "task" => l.drop 6
    | "ul" => l.drop 2
    | "ol" => l.drop ((l.takeWhile isAsciiDigit).length + 2)
    | "alert" =>
      match alertHeadMatch l with
      | some (u, _) => l.drop (1 + ((l.drop 1).takeWhile isJsSpace).length + 2 + u.length + 1)
      | none => l
    | "quote" => l.drop 1
    | "code" => l.drop 3
    | _ => l

/-! ## Inline-format toggler (`applyInlineFormat`, extended webview module
lines 1184-1357): the pure line-rewriting core, with the selection given
as offsets into the line's content. -/

/-- The selected-text link test `^\[(.+)\]\(.+\)$`; split at the last
`](` occurrence. -/
def lastBracketParen : Str → Option (Str × Str)
  | [] => none
  | c :: r =>
    match lastBracketParen r with
    | some (a, b) => some (c :: a, b)
    | none =>
      match c, r with
      | ']', '(' :: r2 => some ([], r2)
      | _, _ => none

/-- Match `^\[(.+)\]\(.+\)$` against the selected text, returning the
visible link text. -/
def linkSelMatch (s : Str) : Option Str :=
  match s with
  | '[' :: rest =>
    match rest.getLast? with
    | some ')' =>
      match lastBracketParen rest.dropLast with
      | some (g1, url) =>
        if !g1.isEmpty && !url.isEmpty && noLineTerm g1 && noLineTerm url then some g1
        else none
      | none => none
    | _ => none
  | _ => none

/-- Formatting markers of the toolbar formats (bold, italic, code,
strikethrough); the same string is used as opening and closing marker. -/
def fmtMarker (format : String) : Option Str :=
  match format with
  | "bold" => some (str "**")
  | "italic" => some (str "*")
  | "code" => some (str "`")
  | "strikethrough" => some (str "~~")
  | _ => none

/-- The line-rewriting core of `applyInlineFormat`: wrap, or strip when
the markers sit just outside the selection or the selection itself is
the wrapped text.  `none` means the handler returns without an edit. -/
def applyInlineFormatLine (format : String) (line : Str) (selStart selEnd : Nat) :
    Option Str :=
  let selectedText := sliceJs line selStart selEnd
  match selectedText with
  | [] => none
  | _ :: _ =>
    if format = "link" then
      match linkSelMatch selectedText with
      | some inner => some (sliceJs line 0 selStart ++ inner ++ line.drop selEnd)
      | none =>
        some (sliceJs line 0 selStart ++ ('[' :: selectedText ++ str "](url)")
          ++ line.drop selEnd)
    else
      match fmtMarker format with
      | none => none
      | some mk =>
        if endsL mk (sliceJs line 0 selStart) && startsL mk (line.drop selEnd) then
          some (sliceJs line 0 (selStart - mk.length) ++ selectedText
            ++ line.drop (selEnd + mk.length))
        else if startsL mk selectedText && endsL mk selectedText &&
            decide (mk.length + mk.length < selectedText.length) then
          some (sliceJs line 0 selStart
            ++ (selectedText.drop mk.length).take (selectedText.length - mk.length - mk.length)
            ++ line.drop selEnd)
        else
          some (sliceJs line 0 selStart ++ mk ++ selectedText ++ mk ++ line.drop selEnd)

/-! ## Position mapper (`saveCursorPosition` / `restoreCursorPosition`,
extended webview module lines 604-735), over a small DOM model.  The fuel
arguments bound tree depth; any fuel exceeding the tree size is exact. -/

/-- A DOM subtree: text nodes, or elements with a class list. -/
inductive DomNode where
  | textN : Str → DomNode
  | elemN : List String → List DomNode → DomNode

/-- The text nodes of a subtree in document order (`TreeWalker` with
`SHOW_TEXT`). -/
def textNodesF : Nat → DomNode → List Str
  | 0, _ => []
  | _, .textN s => [s]
  | fuel + 1, .elemN _ cs => (cs.map (textNodesF fuel)).flatten

/-- `querySelector('.line-content')` on a list of subtrees, preorder. -/
def findContentL : Nat → List DomNode → Option DomNode
  | 0, _ => none
  | _, [] => none
  | fuel + 1, n :: ns =>
    match n with
    | .textN _ => findContentL fuel ns
    | .elemN cls cs =>
      if cls.contains "line-content" then some n
      else
        match findContentL fuel cs with
        | some x => some x
        | none => findContentL fuel ns

/-- `querySelector('.line-content')` on an element (descendants only). -/
def findContent (fuel : Nat) (n : DomNode) : Option DomNode :=
  match n with
  | .textN _ => none
  | .elemN _ cs => findContentL fuel cs

/-- The `(lineIndex, offset)` cursor coordinate. -/
structure CursorPos where
  lineIndex : Nat
  offset : Nat

/-- Total character count of a list of text nodes. -/
def sumLens (nodes : List Str) : Nat := (nodes.map List.length).sum

/-- The offset computation of `saveCursorPosition` (lines 643-663): walk
ALL text nodes of the line element, summing lengths until the selection's
node (given by its index in that walk) and adding the in-node offset; a
node not found leaves the raw offset. -/
def saveOffsetInLine (fuel : Nat) (lineEl : DomNode) (targetIdx offsetInNode : Nat) : Nat :=
  let nodes := textNodesF fuel lineEl
  if targetIdx < nodes.length then sumLens (nodes.take targetIdx) + offsetInNode
  else offsetInNode

/-- Where `restoreCursorPosition` ends up inside the content region. -/
inductive Placement where
  | atText : Nat → Nat → Placement
  | atContentStart : Placement
  deriving Repr, DecidableEq

/-- The walk of `restoreCursorPosition`: first text node where the
accumulated length reaches the offset. -/
def goFind : List Str → Nat → Nat → Option (Nat × Nat)
  | [], _, _ => none
  | n :: ns, off, idx =>
    if off ≤ n.length then some (idx, off) else goFind ns (off - n.length) (idx + 1)

/-- Restore walk with the fallbacks of lines 697-722: past-the-end
offsets land at the end of the last text node; a content region without
text nodes takes the collapsed start. -/
def walkRestore (nodes : List Str) (offset : Nat) : Placement :=
  match goFind nodes offset 0 with
  | some (idx, off) => .atText idx off
  | none =>
    match nodes.getLast? with
    | some last => .atText (nodes.length - 1) last.length
    | none => .atContentStart

/-- Logical character position of a placement within the content region. -/
def logicalPos (nodes : List Str) : Placement → Nat
  | .atText idx off => sumLens (nodes.take idx) + off
  | .atContentStart => 0

/-- `restoreCursorPosition` (lines 666-735): no-op (`none`) when the line
is gone or has no content region; otherwise walk only the content
region's text nodes. -/
def restoreCursor (fuel : Nat) (children : List DomNode) (pos : CursorPos) :
    Option (DomNode × Placement) :=
  match children[pos.lineIndex]? with
  | none => none
  | some lineEl =>
    match findContent fuel lineEl with
    | none => none
    | some content => some (content, walkRestore (textNodesF fuel content) pos.offset)

/-! ## The document class of the round-trip theorem -/

/-- Characters that trigger no styling rule anywhere in the pipeline. -/
def safeChar (c : Char) : Bool := isAlnumA c || c = ' '

/-- An ATX heading whose separator is a plain space and whose text is
safe. -/
def headingLineOK (l : Str) : Bool :=
  let run := l.takeWhile (fun c => c == '#')
  !run.isEmpty && decide (run.length ≤ 6) &&
  (match l.drop run.length with
   | c :: t => c == ' ' && t.all safeChar
   | [] => false)

/-- Lines for which the styling round-trip is proved exact: plain safe
text (possibly empty) or safe headings. -/
def classOK (l : Str) : Bool := l.all safeChar || headingLineOK l


/-- The rendered line block of the first document line `ab` as built by
`markdownToStyledHtml` in the extended webview module: the line-prefix
span holds the line number text `1` and the type-button icon text `T`
(the paragraph icon), followed by the content span. -/
def c2LineDom : DomNode :=
  .elemN ["line"]
    [.elemN ["line-prefix"]
      [.elemN ["line-number"] [.textN (str "1")],
       .elemN ["line-type-btn"] [.textN (str "T")]],
     .elemN ["line-content"] [.textN (str "ab")]]

/-- The content region of the witness line. -/
def c8ContentDom : DomNode := .elemN ["line-content"] [.textN (str "ab")]

/-- A rendered line block with content `ab` for the C8 witness. -/
def c8WitnessDom : DomNode := .elemN ["line"] [c8ContentDom]

/-- No newline characters in a string. -/
def noNl (l : Str) : Bool := l.all (fun c => c != '\n')

/-- The canonical leading marker of each one-line prepend type. -/
def prependMarker (t : String) : Str :=
  match t with
  | "h1" => str "# "
  | "h2" => str "## "
  | "h3" => str "### "
  | "h4" => str "#### "
  | "h5" => str "##### "
  | "h6" => str "###### "
  | "ul" => str "- "
  | "ol" => str "1. "
  | "task" => str "- [ ] "
  | "quote" => str "> "
  | _ => []

/-- The prepend types of the transformer's switch. -/
def prependTypes : List String :=
  ["h1", "h2", "h3", "h4", "h5", "h6", "ul", "ol", "task", "quote"]

/-- Characters the `textContent` reader copies verbatim. -/
def tcPlain (c : Char) : Bool := !(c == '<') && !(c == '&')


/-! # Claim theorems -/

/-- The claimed statement of C1: extraction of the rendered document
reproduces the document modulo trailing-whitespace normalization. -/
def roundTripClaim (md : Str) : Prop :=
  normalizeTrail (extractMarkdown (renderLines md)) = normalizeTrail md

/-- C1 counterexample: the document consisting of the single line
`>foo` renders as a blockquote whose markup inserts a space after the
`>` marker, so extraction returns `> foo` — a change in the middle of
the line that trailing-whitespace normalization does not absorb. -/
theorem c1_roundtrip_counterexample :
    ¬ roundTripClaim (str ">foo") ∧
    extractMarkdown (renderLines (str ">foo")) = str "> foo" := by
  constructor
  · unfold roundTripClaim
    decide
  · decide

/-- C3 counterexample: contrary to the claim that underscore emphasis is
styled only in non-alphanumeric context on both sides, `styleInline`
applied to `foo_bar_baz` does produce an italic span (the single
underscore pattern `(?<!_)_([^_]+)_(?!_)` guards only against adjacent
underscores). -/
theorem c3_underscore_counterexample :
    containsSub (styleInline (str "foo_bar_baz")) (str "md-italic") = true ∧
    containsSub (styleInline (str "foo_bar_baz")) (str "<em>") = true := by
  decide

/-- C3 amended: only the double-underscore bold pattern carries the
non-alphanumeric-context guard (so `a__b__c` and `foo__bar__baz` stay
unstyled while `(__b__)` is bold); the single-underscore italic pattern
guards only against adjacent underscores, so `foo_bar_baz` is
italicized, matching the unguarded asterisk variant. -/
theorem c3_underscore_guards :
    containsSub (styleInline (str "a__b__c")) (str "md-bold") = false ∧
    containsSub (styleInline (str "foo__bar__baz")) (str "md-bold") = false ∧
    containsSub (styleInline (str "(__b__)")) (str "md-bold") = true ∧
    containsSub (styleInline (str "x __b__ y")) (str "md-bold") = true ∧
    containsSub (styleInline (str "foo_bar_baz")) (str "md-italic") = true ∧
    containsSub (styleInline (str "foo*bar*baz")) (str "md-italic") = true := by
  decide

/-- C4 counterexample: on the line `# - foo` the transformer's strip
cascade removes both the heading marker and the bullet marker
(`applyLineType` to `paragraph` yields `foo`), while stripping exactly
the one marker the classifier assigns (`h1`) would yield `- foo`. -/
theorem c4_strip_counterexample :
    stripMarkers (str "# - foo") ≠ stripClassifiedOnceSpec (str "# - foo") ∧
    stripClassifiedOnceSpec (str "# - foo") = str "- foo" ∧
    (getLineType (str "# - foo")).type = "h1" ∧
    applyLineTypeDoc (str "# - foo") 0 "paragraph" = str "foo" := by
  refine ⟨by decide, by decide, by decide, by decide⟩

/-- C7: the bold toggle wraps an unformatted selection `word` into
`**word**`, and applied again to the now-wrapped selection `**word**`
strips the markers back to exactly `word` — its own inverse on this
input. -/
theorem c7_bold_toggle_involution :
    applyInlineFormatLine "bold" (str "word") 0 4 = some (str "**word**") ∧
    applyInlineFormatLine "bold" (str "**word**") 0 8 = some (str "word") := by
  decide

/-- C9: on the input `\*not italic\*` the escaped asterisks are pulled
out to placeholders before any emphasis pass, so the styled output has
no italic span and no `<em>` tag, and the full render/extract pipeline
returns the literal text with both asterisks. -/
theorem c9_escaped_asterisks :
    containsSub (styleInline (str "\\*not italic\\*")) (str "md-italic") = false ∧
    containsSub (styleInline (str "\\*not italic\\*")) (str "<em>") = false ∧
    containsSub (styleInline (str "\\*not italic\\*")) (str "md-escaped") = true ∧
    extractMarkdown (renderLines (str "\\*not italic\\*")) = str "\\*not italic\\*" := by
  refine ⟨by decide, by decide, by decide, by decide⟩


/-- C2 is refuted by the code: with the caret at logical character 1 of
the content `ab` (text-node index 2 of the line's tree walk, in-node
offset 1), `saveCursorPosition` counts the prefix texts `1` and `T` and
returns offset 3, while `restoreCursorPosition` interprets offsets over
the content region only and clamps 3 to the end of `ab` — the caret
moves from logical position 1 to logical position 2. -/
theorem c2_save_counts_prefix_text :
    saveOffsetInLine 10 c2LineDom 2 1 = 3 ∧
    (restoreCursor 10 [c2LineDom] ⟨0, 3⟩).map
      (fun p => logicalPos (textNodesF 10 p.1) p.2) = some 2 := by
  refine ⟨by decide, by decide⟩


/-! ## Renderer structure lemmas -/

/-- The first pass classifies every line into exactly one info record. -/
theorem pass1_length (lines : List Str) :
    ∀ (inCode : Bool) (alert : Option Str), (pass1 lines inCode alert).length = lines.length := by
  induction lines with
  | nil => intro _ _; rfl
  | cons l rest ih =>
    intro inCode alert
    simp only [pass1]
    repeat' split
    all_goals simp [ih]

/-- The second pass emits exactly one markup block per info record. -/
theorem pass2_length (infos : List LineInfo) :
    ∀ (prev : Option LineInfo) (inCode : Bool), (pass2 prev infos inCode).length = infos.length := by
  induction infos with
  | nil => intro _ _; rfl
  | cons info rest ih =>
    intro prev inCode
    simp only [pass2]
    repeat' split
    all_goals simp [ih]

/-- Every step of the first pass conses one info and recurses on the tail
with the fence-toggled code state and some alert state. -/
theorem pass1_cons (l : Str) (rest : List Str) (inCode : Bool) (alert : Option Str) :
    ∃ info alert', pass1 (l :: rest) inCode alert =
      info :: pass1 rest (if fenceLine l then !inCode else inCode) alert' := by
  by_cases hf : fenceLine l = true
  · refine ⟨{ line := l, isCodeFence := true }, none, ?_⟩
    simp [pass1, hf]
  · simp only [Bool.not_eq_true] at hf
    by_cases hc : inCode = true
    · refine ⟨{ line := l, isCodeContent := true }, alert, ?_⟩
      simp [pass1, hf, hc]
    · simp only [Bool.not_eq_true] at hc
      rcases hA : alertFullMatch l with _ | ⟨u, tl⟩
      · rcases alert with _ | t
        · refine ⟨mkPlainInfo l, none, ?_⟩
          simp [pass1, hf, hc, hA]
        · cases l with
          | nil =>
            refine ⟨mkPlainInfo [], none, ?_⟩
            simp [pass1, hf, hc, hA]
          | cons c lt =>
            by_cases hg : (c == '>') = true
            · refine ⟨{ line := c :: lt, isAlertContent := true, alertType := some t }, some t, ?_⟩
              simp [pass1, hf, hc, hA, hg]
            · refine ⟨mkPlainInfo (c :: lt), none, ?_⟩
              simp [pass1, hf, hc, hA, hg]
      · refine ⟨{ line := l, isAlertHeader := true, alertType := some tl }, some tl, ?_⟩
        simp [pass1, hf, hc, hA]

/-- Fence parity invariant: a non-fence line at index `i` is classified
`code-content` whenever the initial state combined with the parity of
earlier fence lines says the renderer is inside a fence there. -/
theorem pass1_inside_code (lines : List Str) :
    ∀ (inCode : Bool) (alert : Option Str) (i : Nat), i < lines.length →
      fenceLine (lines.getD i []) = false →
      (inCode ^^ decide ((lines.take i).countP fenceLine % 2 = 1)) = true →
      ((pass1 lines inCode alert).getD i default).isCodeContent = true := by
  induction lines with
  | nil => intro _ _ i hi _ _; simp at hi
  | cons l rest ih =>
    intro inCode alert i hi hfence hparity
    cases i with
    | zero =>
      have hf0 : fenceLine l = false := by simpa using hfence
      have hin : inCode = true := by
        cases inCode
        · simp at hparity
        · rfl
      subst hin
      simp [pass1, hf0]
    | succ j =>
      obtain ⟨info, alert', hstep⟩ := pass1_cons l rest inCode alert
      rw [hstep]
      have hfence' : fenceLine (rest.getD j []) = false := by simpa using hfence
      have hj : j < rest.length := by simpa using hi
      simp only [List.getD_cons_succ]
      refine ih _ alert' j hj hfence' ?_
      have hcount : (List.take (j + 1) (l :: rest)).countP fenceLine =
          (List.take j rest).countP fenceLine + (if fenceLine l then 1 else 0) := by
        rw [List.take_succ_cons, List.countP_cons]
      rw [hcount] at hparity
      by_cases h : fenceLine l = true
      · simp only [h, if_true] at hparity ⊢
        set n := (List.take j rest).countP fenceLine with hn
        rcases Nat.mod_two_eq_zero_or_one n with he | ho
        · have d1 : ((n + 1) % 2 = 1) := by omega
          have d0 : ¬ (n % 2 = 1) := by omega
          rw [decide_eq_true d1] at hparity
          rw [decide_eq_false d0]
          cases inCode
          · simp
          · simp at hparity
        · have d1 : ¬ ((n + 1) % 2 = 1) := by omega
          rw [decide_eq_false d1] at hparity
          rw [decide_eq_true ho]
          cases inCode
          · simp at hparity
          · simp
      · have h' : fenceLine l = false := by simpa using h
        simp only [h', Bool.false_eq_true, if_false, Nat.add_zero] at hparity ⊢
        exact hparity


/-- C10: `markdownToStyledHtml` emits exactly one top-level line block
per input line — the rendered block list has the same length as the
newline-split of the document — and an empty line becomes a placeholder
block (zero-width-space content) rather than being dropped. -/
theorem c10_line_count_preserved :
    (∀ md : Str, (renderLines md).length = (splitLines md).length) ∧
    (renderLines (str "a\n\nb")).getD 1 [] =
      str "<div class=\"line empty-line\"><span class=\"line-content\">​</span></div>" := by
  constructor
  · intro md
    unfold renderLines
    rw [pass2_length, pass1_length]
  · decide

/-- C5: while the render state is inside an open code fence (an odd
number of earlier lines start with three backticks), every non-fence
line is classified `code-content` regardless of its shape; in particular
`# not a heading` between two fences is rendered as code content and
never as a heading. -/
theorem c5_code_fence_suppression :
    (∀ (md : Str) (i : Nat), i < (splitLines md).length →
      fenceLine ((splitLines md).getD i []) = false →
      ((splitLines md).take i).countP fenceLine % 2 = 1 →
      ((pass1 (splitLines md) false none).getD i default).isCodeContent = true) ∧
    ((pass1 (splitLines (str "```\n# not a heading\n```")) false none).getD 1 default).isCodeContent
      = true ∧
    containsSub ((renderLines (str "```\n# not a heading\n```")).getD 1 [])
      (str "code-content") = true ∧
    containsSub ((renderLines (str "```\n# not a heading\n```")).getD 1 [])
      (str "md-heading") = false := by
  refine ⟨?_, by decide, by decide, by decide⟩
  intro md i hi hf hodd
  exact pass1_inside_code (splitLines md) false none i hi hf (by simp [hodd])

/-- C5 witness: the universal part applied to the concrete document
with a fenced `x`, whose middle line has one (odd) fence before it. -/
theorem c5_code_fence_suppression_witness :
    1 < (splitLines (str "```\nx\n```")).length ∧
    fenceLine ((splitLines (str "```\nx\n```")).getD 1 []) = false ∧
    ((splitLines (str "```\nx\n```")).take 1).countP fenceLine % 2 = 1 ∧
    ((pass1 (splitLines (str "```\nx\n```")) false none).getD 1 default).isCodeContent = true := by
  refine ⟨by decide, by decide, by decide, ?_⟩
  exact c5_code_fence_suppression.1 (str "```\nx\n```") 1 (by decide) (by decide) (by decide)


/-! ## Cursor-restore lemmas -/

/-- Unfolding lemma for the text-node total. -/
theorem sumLens_cons (x : Str) (xs : List Str) :
    sumLens (x :: xs) = x.length + sumLens xs := by
  simp [sumLens]

/-- Past-the-total offsets are not found by the restore walk. -/
theorem goFind_none_of_lt (nodes : List Str) :
    ∀ (off idx : Nat), sumLens nodes < off → goFind nodes off idx = none := by
  induction nodes with
  | nil => intro _ _ _; rfl
  | cons n ns ih =>
    intro off idx h
    rw [sumLens_cons] at h
    have h2 : ¬ off ≤ n.length := by omega
    simp only [goFind, if_neg h2]
    exact ih _ _ (by omega)

/-- Offsets within the total are found at their exact logical position. -/
theorem goFind_exact (nodes : List Str) :
    ∀ (off idx : Nat), off ≤ sumLens nodes → (nodes ≠ [] ∨ 1 ≤ off) →
      ∃ i o, goFind nodes off idx = some (i, o) ∧ idx ≤ i ∧
        sumLens (nodes.take (i - idx)) + o = off := by
  induction nodes with
  | nil =>
    intro off idx h hv
    simp [sumLens] at h
    rcases hv with h1 | h2
    · exact absurd rfl h1
    · omega
  | cons n ns ih =>
    intro off idx h _
    by_cases hle : off ≤ n.length
    · exact ⟨idx, off, by simp [goFind, hle], le_refl idx, by simp [sumLens]⟩
    · rw [sumLens_cons] at h
      have h1 : off - n.length ≤ sumLens ns := by omega
      obtain ⟨i, o, hfind, hge, hsum⟩ := ih (off - n.length) (idx + 1) h1 (Or.inr (by omega))
      refine ⟨i, o, by simp [goFind, hle, hfind], by omega, ?_⟩
      have htake : (n :: ns).take (i - idx) = n :: ns.take (i - (idx + 1)) := by
        have heq : i - idx = (i - (idx + 1)) + 1 := by omega
        rw [heq, List.take_succ_cons]
      rw [htake, sumLens_cons]
      omega

/-- Sum decomposition at the last text node. -/
theorem sumLens_last (nodes : List Str) : nodes ≠ [] →
    sumLens (nodes.take (nodes.length - 1)) + (nodes.getLast?.getD []).length
      = sumLens nodes := by
  induction nodes with
  | nil => intro h; exact absurd rfl h
  | cons n ns ih =>
    intro _
    cases hns : ns with
    | nil => simp [sumLens]
    | cons m ms =>
      subst hns
      have h1 : (n :: m :: ms).length - 1 = ms.length + 1 := by simp
      rw [h1, List.take_succ_cons]
      have ih' := ih (by simp)
      have h3 : (m :: ms).length - 1 = ms.length := by simp
      rw [h3] at ih'
      rw [List.getLast?_cons_cons, sumLens_cons, sumLens_cons]
      omega

/-- The restore walk clamps any past-the-end offset to the very end of
the content (and is exact at the boundary). -/
theorem walkRestore_clamp (nodes : List Str) (off : Nat) (h : sumLens nodes ≤ off) :
    logicalPos nodes (walkRestore nodes off) = sumLens nodes := by
  cases nodes with
  | nil => simp [walkRestore, goFind, logicalPos, sumLens]
  | cons n ns =>
    rcases eq_or_lt_of_le h with heq | hlt
    · obtain ⟨i, o, hfind, _, hsum⟩ := goFind_exact (n :: ns) off 0 heq.ge (Or.inl (by simp))
      simp only [walkRestore, hfind, logicalPos]
      simpa [Nat.sub_zero] using hsum.trans heq.symm
    · rw [walkRestore, goFind_none_of_lt _ _ _ hlt]
      obtain ⟨last, hl⟩ : ∃ last, (n :: ns).getLast? = some last := by
        cases hx : (n :: ns).getLast? with
        | none => exact absurd hx (by simp)
        | some x => exact ⟨x, rfl⟩
      rw [hl]
      simp only [logicalPos]
      have hsum := sumLens_last (n :: ns) (by simp)
      rw [hl] at hsum
      simpa using hsum

/-- C8: `restoreCursorPosition` never faults — a position whose line
index is at or past the number of rendered lines is a no-op, and a
character offset at or past the content length is clamped to the end of
the line's content region. -/
theorem c8_restore_never_throws :
    (∀ (fuel : Nat) (children : List DomNode) (pos : CursorPos),
      children.length ≤ pos.lineIndex → restoreCursor fuel children pos = none) ∧
    (∀ (fuel : Nat) (children : List DomNode) (pos : CursorPos) (lineEl content : DomNode),
      children[pos.lineIndex]? = some lineEl →
      findContent fuel lineEl = some content →
      sumLens (textNodesF fuel content) ≤ pos.offset →
      restoreCursor fuel children pos =
        some (content, walkRestore (textNodesF fuel content) pos.offset) ∧
      logicalPos (textNodesF fuel content)
        (walkRestore (textNodesF fuel content) pos.offset) =
        sumLens (textNodesF fuel content)) := by
  constructor
  · intro fuel children pos h
    unfold restoreCursor
    rw [List.getElem?_eq_none h]
  · intro fuel children pos lineEl content h1 h2 h3
    refine ⟨?_, walkRestore_clamp _ _ h3⟩
    unfold restoreCursor
    simp [h1, h2]


/-- C8 witness: restoring onto an empty document is a no-op, and offset
99 on the two-character line `ab` lands at logical position 2, the end
of the content. -/
theorem c8_restore_never_throws_witness :
    restoreCursor 5 ([] : List DomNode) ⟨3, 0⟩ = none ∧
    restoreCursor 5 [c8WitnessDom] ⟨0, 99⟩ =
      some (c8ContentDom, walkRestore (textNodesF 5 c8ContentDom) 99) ∧
    logicalPos (textNodesF 5 c8ContentDom) (walkRestore (textNodesF 5 c8ContentDom) 99) = 2 := by
  have h1 : ([c8WitnessDom])[(0 : Nat)]? = some c8WitnessDom := rfl
  have h2 : findContent 5 c8WitnessDom = some c8ContentDom := rfl
  have h3 : sumLens (textNodesF 5 c8ContentDom) ≤ 99 := by decide
  obtain ⟨ha, hb⟩ :=
    c8_restore_never_throws.2 5 [c8WitnessDom] ⟨0, 99⟩ c8WitnessDom c8ContentDom h1 h2 h3
  refine ⟨c8_restore_never_throws.1 5 [] ⟨3, 0⟩ (by decide), ha, ?_⟩
  rw [hb]
  decide


/-! ## Heading classification lemmas -/

/-- `takeWhile (== '#')` passes over a replicated hash block. -/
theorem takeWhile_hash_replicate (k : Nat) (s : Str) :
    (List.replicate k '#' ++ s).takeWhile (fun c => c == '#')
      = List.replicate k '#' ++ s.takeWhile (fun c => c == '#') := by
  induction k with
  | zero => simp
  | succ kp ih => simp [List.replicate_succ, List.takeWhile_cons, ih]

/-- Peeling one hash off a heading detector. -/
theorem matchHn_cons_hash (k : Nat) (rest : Str) :
    matchHn (k + 1) ('#' :: rest) = matchHn k rest := by
  simp [matchHn, List.replicate_succ, startsL, List.drop_succ_cons]

/-- No heading detector fires when the hash run is followed by a
non-space, non-hash character. -/
theorem matchHn_no_space (c : Char) (t : Str) (hc : (c == '#') = false)
    (hs : isJsSpace c = false) :
    ∀ (k : Nat), 1 ≤ k → ∀ (n : Nat),
      matchHn k (List.replicate n '#' ++ c :: t) = false := by
  intro k
  induction k with
  | zero => intro h; omega
  | succ kp ih =>
    intro _ n
    cases n with
    | zero =>
      have hne : c ≠ '#' := by simpa using hc
      have hc' : ('#' == c) = false := by
        simpa [beq_eq_false_iff_ne] using (Ne.symm hne)
      simp [matchHn, List.replicate_succ, startsL, hc']
    | succ m =>
      cases kp with
      | zero =>
        cases m with
        | zero => simp [matchHn, startsL, hs]
        | succ p =>
          simp [matchHn, startsL, List.replicate_succ,
            show isJsSpace '#' = false from by decide]
      | succ kq =>
        have hrw : List.replicate (m + 1) '#' ++ c :: t
            = '#' :: (List.replicate m '#' ++ c :: t) := by
          simp [List.replicate_succ]
        rw [hrw, matchHn_cons_hash]
        exact ih (by omega) m

/-- None of the non-heading detectors fires on a line starting with a
hash. -/
theorem lineTypes_tail_false_hash (r : Str) :
    hrTypePat ('#' :: r) = false ∧ taskTypePat ('#' :: r) = false ∧
    ulTypePat ('#' :: r) = false ∧ olTypePat ('#' :: r) = false ∧
    alertTypePat ('#' :: r) = false ∧ quoteTypePat ('#' :: r) = false ∧
    codeTypePat ('#' :: r) = false :=
  ⟨rfl, rfl, rfl, rfl, rfl, rfl, rfl⟩

/-- A hash-headed line on which no heading detector fires classifies as
a paragraph. -/
theorem getLineType_hash_paragraph (rest : Str)
    (h : ∀ k, 1 ≤ k → k ≤ 6 → matchHn k ('#' :: rest) = false) :
    (getLineType ('#' :: rest)).type = "paragraph" := by
  obtain ⟨hhr, htask, hul, hol, hal, hq, hcode⟩ := lineTypes_tail_false_hash rest
  simp [getLineType, LINE_TYPES, List.find?, DEFAULT_LINE_TYPE,
    h 1 (by omega) (by omega), h 2 (by omega) (by omega), h 3 (by omega) (by omega),
    h 4 (by omega) (by omega), h 5 (by omega) (by omega), h 6 (by omega) (by omega),
    hhr, htask, hul, hol, hal, hq, hcode]

/-- The heading matcher on a well formed heading line. -/
theorem headingMatch_repl (n : Nat) (t : Str) (h1 : 1 ≤ n) (h6 : n ≤ 6)
    (ht : noLineTerm t = true) :
    headingMatch (List.replicate n '#' ++ ' ' :: t) = some (n, t) := by
  have htw : (List.replicate n '#' ++ ' ' :: t).takeWhile (fun c => c == '#')
      = List.replicate n '#' := by
    rw [takeWhile_hash_replicate]
    simp [List.takeWhile_cons, show ((' ' == '#') = false) from by decide]
  simp only [headingMatch, htw, List.length_replicate]
  rw [if_pos ⟨h1, h6⟩, List.drop_left' (by simp)]
  simp [ht, show isJsSpace ' ' = true from by decide]


/-- C6: every line of one to six hashes followed by one space is
classified as a heading of that exact level by both the line-type table
and `styleLine`'s heading matcher; seven or more hashes, or a missing
space after the hashes, always falls back to paragraph. -/
theorem c6_heading_classification :
    (∀ (n : Nat) (t : Str), 1 ≤ n → n ≤ 6 → noLineTerm t = true →
      (getLineType (List.replicate n '#' ++ ' ' :: t)).type = "h" ++ toString n ∧
      headingMatch (List.replicate n '#' ++ ' ' :: t) = some (n, t)) ∧
    (∀ (m : Nat) (t : Str), 7 ≤ m →
      (getLineType (List.replicate m '#' ++ t)).type = "paragraph" ∧
      headingMatch (List.replicate m '#' ++ t) = none) ∧
    (∀ (n : Nat) (c : Char) (t : Str), 1 ≤ n → (c == '#') = false → isJsSpace c = false →
      (getLineType (List.replicate n '#' ++ c :: t)).type = "paragraph" ∧
      headingMatch (List.replicate n '#' ++ c :: t) = none) := by
  refine ⟨?_, ?_, ?_⟩
  · intro n t h1 h6 ht
    constructor
    · interval_cases n <;> rfl
    · exact headingMatch_repl n t h1 h6 ht
  · intro m t h7
    obtain ⟨j, rfl⟩ := Nat.exists_eq_add_of_le h7
    have hrep : List.replicate (7 + j) '#' = List.replicate 7 '#' ++ List.replicate j '#' :=
      List.replicate_add 7 j '#'
    constructor
    · rw [hrep, List.append_assoc]
      rfl
    · rw [hrep, List.append_assoc]
      have htw : (List.replicate 7 '#' ++ (List.replicate j '#' ++ t)).takeWhile
          (fun c => c == '#')
          = List.replicate 7 '#' ++ (List.replicate j '#' ++ t.takeWhile (fun c => c == '#')) := by
        rw [takeWhile_hash_replicate, takeWhile_hash_replicate]
      simp only [headingMatch, htw]
      rw [if_neg]
      simp only [List.length_append, List.length_replicate]
      omega
  · intro n c t h1 hc hs
    obtain ⟨np, rfl⟩ : ∃ np, n = np + 1 := ⟨n - 1, by omega⟩
    have hrw : List.replicate (np + 1) '#' ++ c :: t
        = '#' :: (List.replicate np '#' ++ c :: t) := by
      simp [List.replicate_succ]
    constructor
    · rw [hrw]
      apply getLineType_hash_paragraph
      intro k hk1 _
      rw [← hrw]
      exact matchHn_no_space c t hc hs k hk1 (np + 1)
    · have htw : (List.replicate (np + 1) '#' ++ c :: t).takeWhile (fun x => x == '#')
          = List.replicate (np + 1) '#' := by
        rw [takeWhile_hash_replicate]
        simp [List.takeWhile_cons, hc]
      simp only [headingMatch, htw, List.length_replicate]
      by_cases h6 : np + 1 ≤ 6
      · rw [if_pos ⟨by omega, h6⟩, List.drop_left' (by simp)]
        simp [hs]
      · rw [if_neg (by omega)]

/-- C6 witness: the three parts of the classification theorem applied to
`### Title`, eight hashes, and `##x`. -/
theorem c6_heading_classification_witness :
    ((1 : Nat) ≤ 3 ∧ (3 : Nat) ≤ 6 ∧ noLineTerm (str "Title") = true ∧
      (getLineType (List.replicate 3 '#' ++ ' ' :: str "Title")).type = "h" ++ toString 3 ∧
      headingMatch (List.replicate 3 '#' ++ ' ' :: str "Title") = some (3, str "Title")) ∧
    ((7 : Nat) ≤ 8 ∧ (getLineType (List.replicate 8 '#' ++ str " x")).type = "paragraph") ∧
    (('x' == '#') = false ∧ isJsSpace 'x' = false ∧
      headingMatch (List.replicate 2 '#' ++ 'x' :: str "y") = none) := by
  refine ⟨⟨by decide, by decide, by decide, ?_, ?_⟩, ⟨by decide, ?_⟩, ⟨by decide, by decide, ?_⟩⟩
  · exact (c6_heading_classification.1 3 (str "Title") (by decide) (by decide) (by decide)).1
  · exact (c6_heading_classification.1 3 (str "Title") (by decide) (by decide) (by decide)).2
  · exact (c6_heading_classification.2.1 8 (str " x") (by decide)).1
  · exact (c6_heading_classification.2.2 2 'x' (str "y") (by decide) (by decide) (by decide)).2


/-! ## Split/join lemmas for the line-type transformer -/


/-- `consHead` never returns the empty list. -/
theorem consHead_ne_nil (c : Char) (X : List Str) : consHead c X ≠ [] := by
  cases X <;> simp [consHead]

/-- `splitLines` always produces at least one line. -/
theorem splitLines_ne_nil (s : Str) : splitLines s ≠ [] := by
  cases s with
  | nil => simp [splitLines]
  | cons c cs =>
    by_cases h : c = '\n' <;> simp [splitLines, h, consHead_ne_nil]

/-- Lines produced by `splitLines` are newline-free. -/
theorem splitLines_no_nl (md : Str) : ∀ l ∈ splitLines md, noNl l = true := by
  induction md with
  | nil =>
    intro l hl
    simp [splitLines] at hl
    subst hl
    rfl
  | cons c cs ih =>
    intro l hl
    by_cases hc : c = '\n'
    · subst hc
      simp [splitLines] at hl
      rcases hl with rfl | hl
      · rfl
      · exact ih l hl
    · simp only [splitLines, if_neg hc] at hl
      obtain ⟨h, t, hsplit⟩ : ∃ h t, splitLines cs = h :: t := by
        cases hs : splitLines cs with
        | nil => exact absurd hs (splitLines_ne_nil cs)
        | cons h t => exact ⟨h, t, rfl⟩
      rw [hsplit] at hl
      simp [consHead] at hl
      rcases hl with rfl | hl
      · have hh : noNl h = true := ih h (by simp [hsplit])
        simp [noNl, List.all_cons] at hh ⊢
        exact ⟨hc, hh⟩
      · exact ih l (by simp [hsplit, hl])

/-- Splitting a newline-free string. -/
theorem splitLines_single (x : Str) (hx : noNl x = true) : splitLines x = [x] := by
  induction x with
  | nil => rfl
  | cons c cs ih =>
    simp only [noNl, List.all_cons, Bool.and_eq_true] at hx
    have hc : ¬ c = '\n' := by simpa using hx.1
    rw [splitLines, if_neg hc, ih hx.2]
    rfl

/-- Splitting at an explicit newline after a newline-free chunk. -/
theorem splitLines_append_nl (x y : Str) (hx : noNl x = true) :
    splitLines (x ++ '\n' :: y) = x :: splitLines y := by
  induction x with
  | nil => simp [splitLines]
  | cons c cs ih =>
    simp only [noNl, List.all_cons, Bool.and_eq_true] at hx
    have hc : ¬ c = '\n' := by simpa using hx.1
    rw [List.cons_append, splitLines, if_neg hc, ih hx.2]
    rfl

/-- `joinLines` on a cons with a nonempty tail. -/
theorem joinLines_cons_of_ne_nil (a : Str) (ls : List Str) (h : ls ≠ []) :
    joinLines (a :: ls) = a ++ '\n' :: joinLines ls := by
  cases ls with
  | nil => exact absurd rfl h
  | cons b bs => rfl

/-- `splitLines` inverts `joinLines` on newline-free lines. -/
theorem split_join_id (L : List Str) (hL : ∀ l ∈ L, noNl l = true) (hne : L ≠ []) :
    splitLines (joinLines L) = L := by
  induction L with
  | nil => exact absurd rfl hne
  | cons a as ih =>
    cases as with
    | nil => simp [joinLines, splitLines_single a (hL a (by simp))]
    | cons b bs =>
      rw [joinLines_cons_of_ne_nil a _ (by simp),
        splitLines_append_nl a _ (hL a (by simp)),
        ih (fun l hl => hL l (by simp [hl])) (by simp)]

/-- `splitLines` after `joinLines` when one element holds a three-line
code fence (two embedded newlines): the element splits into its three
lines in place. -/
theorem split_join_code (A : List Str) (u v w : Str) (B : List Str)
    (hA : ∀ l ∈ A, noNl l = true) (hB : ∀ l ∈ B, noNl l = true)
    (hu : noNl u = true) (hv : noNl v = true) (hw : noNl w = true) :
    splitLines (joinLines (A ++ (u ++ '\n' :: (v ++ '\n' :: w)) :: B))
      = A ++ u :: v :: w :: B := by
  induction A with
  | nil =>
    cases B with
    | nil =>
      simp only [List.nil_append, joinLines]
      rw [splitLines_append_nl _ _ hu, splitLines_append_nl _ _ hv, splitLines_single _ hw]
    | cons b bs =>
      rw [List.nil_append, joinLines_cons_of_ne_nil _ _ (by simp), List.append_assoc]
      have hsh : ('\n' :: (v ++ '\n' :: w)) ++ '\n' :: joinLines (b :: bs)
          = '\n' :: ((v ++ '\n' :: w) ++ '\n' :: joinLines (b :: bs)) := rfl
      rw [hsh, splitLines_append_nl _ _ hu, List.append_assoc]
      have hsh2 : ('\n' :: w) ++ '\n' :: joinLines (b :: bs)
          = '\n' :: (w ++ '\n' :: joinLines (b :: bs)) := rfl
      rw [hsh2, splitLines_append_nl _ _ hv, splitLines_append_nl _ _ hw,
        split_join_id (b :: bs) hB (by simp)]
      rfl
  | cons a as ih =>
    rw [List.cons_append, joinLines_cons_of_ne_nil _ _ (by simp),
      splitLines_append_nl _ _ (hA a (by simp)),
      ih (fun l hl => hA l (by simp [hl]))]
    rfl

/-! ## Newline preservation through the strip cascade -/

/-- Booleans of a predicate survive `drop`. -/
theorem all_true_drop (p : Char → Bool) (n : Nat) (l : Str) (h : l.all p = true) :
    (l.drop n).all p = true := by
  simp only [List.all_eq_true] at h ⊢
  exact fun x hx => h x (List.mem_of_mem_drop hx)

/-- Booleans of a predicate survive `dropWhile`. -/
theorem all_true_dropWhile (p q : Char → Bool) (l : Str) (h : l.all p = true) :
    (l.dropWhile q).all p = true := by
  simp only [List.all_eq_true] at h ⊢
  exact fun x hx => h x ((List.dropWhile_sublist q).subset hx)

/-- A tail obtained by matching a `drop` keeps `all`. -/
theorem all_true_of_drop_eq (p : Char → Bool) (l rest : Str) (c : Char) (n : Nat)
    (h : l.all p = true) (he : l.drop n = c :: rest) : rest.all p = true := by
  have := all_true_drop p n l h
  rw [he] at this
  simp only [List.all_cons, Bool.and_eq_true] at this
  exact this.2


/-- `stripHr` keeps lines newline-free. -/
theorem noNl_stripHr (l : Str) (h : noNl l = true) : noNl (stripHr l) = true := by
  unfold stripHr
  split
  · rfl
  · exact h

/-- `stripHeading` keeps lines newline-free. -/
theorem noNl_stripHeading (l : Str) (h : noNl l = true) : noNl (stripHeading l) = true := by
  simp only [stripHeading]
  split
  · split
    · rename_i c rest hd
      split
      · exact all_true_of_drop_eq _ l _ _ _ h hd
      · exact h
    · exact h
  · exact h

/-- `stripTask` keeps lines newline-free. -/
theorem noNl_stripTask (l : Str) (h : noNl l = true) : noNl (stripTask l) = true := by
  unfold stripTask
  split
  · split
    · rename_i m s1 c s2 rest
      simp only [noNl, List.all_cons, Bool.and_eq_true] at h
      exact h.2.2.2.2.2.2
    · exact h
  · exact h

/-- `stripUl` keeps lines newline-free. -/
theorem noNl_stripUl (l : Str) (h : noNl l = true) : noNl (stripUl l) = true := by
  unfold stripUl
  split
  · split
    · rename_i m s rest
      simp only [noNl, List.all_cons, Bool.and_eq_true] at h
      exact h.2.2
    · exact h
  · exact h

/-- `stripOl` keeps lines newline-free. -/
theorem noNl_stripOl (l : Str) (h : noNl l = true) : noNl (stripOl l) = true := by
  simp only [stripOl]
  split
  · exact h
  · split
    · rename_i s rest hd
      split
      · have hall := all_true_drop (fun c => c != '\n') (l.takeWhile isAsciiDigit).length l h
        rw [hd] at hall
        simp only [List.all_cons, Bool.and_eq_true] at hall
        exact hall.2.2
      · exact h
    · exact h

/-- `stripQuote` keeps lines newline-free. -/
theorem noNl_stripQuote (l : Str) (h : noNl l = true) : noNl (stripQuote l) = true := by
  simp only [stripQuote]
  split
  · exact h
  · split
    · rename_i s rest hd
      have hall := all_true_drop (fun c => c != '\n')
        (l.takeWhile (fun c => c == '>')).length l h
      rw [hd] at hall
      split
      · simp only [List.all_cons, Bool.and_eq_true] at hall
        exact hall.2
      · exact hall
    · rfl

/-- `stripFence` keeps lines newline-free. -/
theorem noNl_stripFence (l : Str) (h : noNl l = true) : noNl (stripFence l) = true := by
  unfold stripFence
  split
  · rename_i r
    simp only [noNl, List.all_cons, Bool.and_eq_true] at h
    exact all_true_dropWhile _ _ _ (all_true_drop _ _ _ h.2.2.2)
  · exact h

/-- The whole strip cascade keeps lines newline-free. -/
theorem noNl_stripMarkers (l : Str) (h : noNl l = true) : noNl (stripMarkers l) = true :=
  noNl_stripFence _ (noNl_stripQuote _ (noNl_stripOl _ (noNl_stripUl _
    (noNl_stripTask _ (noNl_stripHeading _ (noNl_stripHr _ h))))))


/-- For a prepend type the switch is marker-prepending. -/
theorem applyLineTypeLine_prepend (t : String) (ht : t ∈ prependTypes) (line : Str) :
    applyLineTypeLine t line = prependMarker t ++ line := by
  fin_cases ht <;> rfl

/-- A prepend marker is newline-free. -/
theorem noNl_prependMarker (t : String) : noNl (prependMarker t) = true := by
  unfold prependMarker
  split <;> decide

/-- C4 amended: `applyLineType` strips the line through the ordered
cascade `stripMarkers` (rule, heading, task, bullet, ordered,
blockquote, fence — each applied in sequence, so stacked markers are all
removed, unlike a first-match-only use of the classifier table) and
then prepends the new type's canonical marker in place; converting to
`code` splices a three-line fence into the document at the line's
position. -/
theorem c4_strip_cascade :
    (∀ (md : Str) (i : Nat) (t : String), i < (splitLines md).length → t ∈ prependTypes →
      splitLines (applyLineTypeDoc md i t) =
        (splitLines md).set i
          (prependMarker t ++ stripMarkers ((splitLines md).getD i []))) ∧
    (∀ (md : Str) (i : Nat), i < (splitLines md).length →
      splitLines (applyLineTypeDoc md i "code") =
        (splitLines md).take i
          ++ str "```" :: stripMarkers ((splitLines md).getD i []) :: str "```"
          :: (splitLines md).drop (i + 1)) := by
  constructor
  · intro md i t hi ht
    have hall := splitLines_no_nl md
    simp only [applyLineTypeDoc]
    rw [applyLineTypeLine_prepend t ht]
    apply split_join_id
    · intro l hl
      rw [List.set_eq_take_cons_drop _ hi] at hl
      rcases List.mem_append.mp hl with htake | hrest
      · exact hall l (List.mem_of_mem_take htake)
      · rcases List.mem_cons.mp hrest with rfl | hdrop
        · rw [show noNl (prependMarker t ++ stripMarkers ((splitLines md).getD i []))
              = (noNl (prependMarker t) && noNl (stripMarkers ((splitLines md).getD i [])))
            from List.all_append ..]
          rw [noNl_prependMarker t, noNl_stripMarkers _ ?_]
          · rfl
          · rcases Nat.lt_or_ge i (splitLines md).length with h' | h'
            · have : (splitLines md).getD i [] ∈ splitLines md := by
                rw [List.getD_eq_getElem _ _ h']
                exact List.getElem_mem h'
              exact hall _ this
            · omega
        · exact hall l (List.mem_of_mem_drop hdrop)
    · intro hc
      have h0 := congrArg List.length hc
      simp only [List.length_set, List.length_nil] at h0
      omega
  · intro md i hi
    have hall := splitLines_no_nl md
    have hmem : (splitLines md).getD i [] ∈ splitLines md := by
      rw [List.getD_eq_getElem _ _ hi]
      exact List.getElem_mem hi
    simp only [applyLineTypeDoc]
    have hline : applyLineTypeLine "code" (stripMarkers ((splitLines md).getD i []))
        = str "```" ++ '\n' :: (stripMarkers ((splitLines md).getD i []) ++ '\n' :: str "```") :=
      rfl
    rw [hline, List.set_eq_take_cons_drop _ hi]
    exact split_join_code _ _ _ _ _
      (fun l hl => hall l (List.mem_of_mem_take hl))
      (fun l hl => hall l (List.mem_of_mem_drop hl))
      (by decide) (noNl_stripMarkers _ (hall _ hmem)) (by decide)

/-- C4 witness: converting line 0 of `x\n- y` to `h2` and line 1 to
`code`, with the hypotheses discharged concretely. -/
theorem c4_strip_cascade_witness :
    0 < (splitLines (str "x\n- y")).length ∧ "h2" ∈ prependTypes ∧
    splitLines (applyLineTypeDoc (str "x\n- y") 0 "h2") =
      (splitLines (str "x\n- y")).set 0
        (prependMarker "h2" ++ stripMarkers ((splitLines (str "x\n- y")).getD 0 [])) ∧
    1 < (splitLines (str "x\n- y")).length ∧
    splitLines (applyLineTypeDoc (str "x\n- y") 1 "code") =
      (splitLines (str "x\n- y")).take 1
        ++ str "```" :: stripMarkers ((splitLines (str "x\n- y")).getD 1 []) :: str "```"
        :: (splitLines (str "x\n- y")).drop 2 := by
  refine ⟨by decide, by decide, ?_, by decide, ?_⟩
  · exact c4_strip_cascade.1 (str "x\n- y") 0 "h2" (by decide) (by decide)
  · exact c4_strip_cascade.2 (str "x\n- y") 1 (by decide)


/-! ## Character facts for the round-trip theorem -/

/-- A safe character differs from any unsafe character. -/
theorem safeChar_not (c x : Char) (hc : safeChar c = true) (hx : safeChar x = false) :
    c ≠ x := by
  intro he
  rw [he, hx] at hc
  cases hc

/-- A safe character never `==`-equals an unsafe character. -/
theorem safeChar_beq_false (c x : Char) (hc : safeChar c = true) (hx : safeChar x = false) :
    (c == x) = false := by
  simpa [beq_eq_false_iff_ne] using safeChar_not c x hc hx

/-- All characters of an all-safe string differ from a fixed unsafe
character. -/
theorem safe_all_ne (l : Str) (h : l.all safeChar = true) (x : Char)
    (hx : safeChar x = false) : l.all (fun c => c != x) = true := by
  simp only [List.all_eq_true, bne_iff_ne] at h ⊢
  exact fun a ha => safeChar_not a x (h a ha) hx

/-- The code point of an `[a-zA-Z0-9]` character lies in `[48, 122]`. -/
theorem alnum_val_bounds (c : Char) (h : isAlnumA c = true) :
    48 ≤ c.val.toNat ∧ c.val.toNat ≤ 122 := by
  simp only [isAlnumA, isAsciiAlpha, isAsciiDigit, Bool.or_eq_true, Bool.and_eq_true,
    decide_eq_true_eq] at h
  rcases h with (⟨h1, h2⟩ | ⟨h1, h2⟩) | ⟨h1, h2⟩ <;>
  · have ha : Char.val _ ≤ c.val := h1
    have hb : c.val ≤ Char.val _ := h2
    have ha' : UInt32.toNat (Char.val _) ≤ c.val.toNat := ha
    have hb' : c.val.toNat ≤ UInt32.toNat (Char.val _) := hb
    exact ⟨le_trans (by decide) ha', le_trans hb' (by decide)⟩

/-- Alphanumeric ASCII characters are not JavaScript whitespace. -/
theorem isJsSpace_of_alnum (c : Char) (h : isAlnumA c = true) : isJsSpace c = false := by
  have hb := alnum_val_bounds c h
  cases hc : isJsSpace c with
  | false => rfl
  | true =>
    exfalso
    simp only [isJsSpace, Bool.or_eq_true, Bool.and_eq_true, decide_eq_true_eq] at hc
    rcases hc with (((((((((((((rfl | rfl) | rfl) | rfl) | rfl) | rfl) | rfl) | rfl) |
      ⟨hr1, hr2⟩) | rfl) | rfl) | rfl) | rfl) | rfl) | rfl
    all_goals first
      | exact absurd hb (by decide)
      | (have hr1' : (8192 : Nat) ≤ c.val.toNat := hr1
         omega)

/-- Alphanumeric ASCII characters are not line terminators. -/
theorem isLineTermC_of_alnum (c : Char) (h : isAlnumA c = true) : isLineTermC c = false := by
  have hb := alnum_val_bounds c h
  cases hc : isLineTermC c with
  | false => rfl
  | true =>
    exfalso
    simp only [isLineTermC, Bool.or_eq_true, decide_eq_true_eq] at hc
    rcases hc with ((rfl | rfl) | rfl) | rfl <;> exact absurd hb (by decide)

/-- A safe character is alphanumeric or the plain space. -/
theorem safeChar_cases (c : Char) (h : safeChar c = true) :
    isAlnumA c = true ∨ c = ' ' := by
  simpa [safeChar] using h

/-- Safe characters are not line terminators. -/
theorem noLineTerm_of_safe (l : Str) (h : l.all safeChar = true) : noLineTerm l = true := by
  simp only [noLineTerm, List.all_eq_true, Bool.not_eq_true'] at *
  intro c hc
  rcases safeChar_cases c (h c hc) with ha | rfl
  · exact isLineTermC_of_alnum c ha
  · rfl

/-- Dropping the `takeWhile` run is `dropWhile`. -/
theorem drop_takeWhile (p : Char → Bool) (l : Str) :
    l.drop (l.takeWhile p).length = l.dropWhile p := by
  induction l with
  | nil => rfl
  | cons c cs ih =>
    by_cases hp : p c = true
    · simp [List.takeWhile_cons, List.dropWhile_cons, hp, ih]
    · simp [List.takeWhile_cons, List.dropWhile_cons, hp]

/-- The head of a `dropWhile` result fails the predicate. -/
theorem dropWhile_head_false (p : Char → Bool) :
    ∀ (l : Str) (d : Char) (rest : Str), l.dropWhile p = d :: rest → p d = false := by
  intro l
  induction l with
  | nil => intro d rest h; cases h
  | cons c cs ih =>
    intro d rest h
    by_cases hp : p c = true
    · rw [List.dropWhile_cons, if_pos hp] at h
      exact ih d rest h
    · rw [List.dropWhile_cons, if_neg hp] at h
      cases h
      simpa using hp

/-- `removeZWSP` leaves strings without the zero-width space unchanged. -/
theorem removeZWSP_id (l : Str) (h : l.all (fun c => c != zwsp) = true) :
    removeZWSP l = l := by
  unfold removeZWSP
  rw [List.filter_eq_self]
  simpa [List.all_eq_true] using h

/-- Digit characters of a single decimal digit. -/
theorem isAsciiDigit_digitChar (k : Nat) (hk : k < 10) : isAsciiDigit (digitChar k) = true := by
  interval_cases k <;> decide

/-- All characters of a decimal rendering are ASCII digits. -/
theorem natDigitsF_digits (fuel : Nat) :
    ∀ n, (natDigitsF fuel n).all isAsciiDigit = true := by
  induction fuel with
  | zero => intro n; rfl
  | succ f ih =>
    intro n
    simp only [natDigitsF]
    split
    · rename_i hn
      simp [isAsciiDigit_digitChar n hn]
    · rename_i hn
      simp only [List.all_append]
      rw [ih (n / 10)]
      simp [isAsciiDigit_digitChar (n % 10) (Nat.mod_lt n (by omega))]

/-- All characters of a decimal rendering are ASCII digits. -/
theorem natDigits_digits (n : Nat) : (natDigits n).all isAsciiDigit = true :=
  natDigitsF_digits (n + 1) n

/-- ASCII digits differ from any character above `'9'` or below `'0'`;
here: they are never `'>'`. -/
theorem digit_ne_gt (c : Char) (h : isAsciiDigit c = true) : (c == '>') = false := by
  simp only [beq_eq_false_iff_ne]
  intro he
  subst he
  simp [isAsciiDigit] at h


/-! ## The inline styler fixes safe text -/

/-- A scanner whose matcher never fires on the string's characters is the
identity. -/
theorem runScan_id (m : Str → Option (Nat × Str)) (P : Char → Bool)
    (hm : ∀ c rest, P c = true → m (c :: rest) = none) :
    ∀ (fuel : Nat) (s : Str), s.all P = true → runScan m fuel s = s := by
  intro fuel
  induction fuel with
  | zero => intro s _; rfl
  | succ f ih =>
    intro s hs
    cases s with
    | nil => rfl
    | cons c rest =>
      rw [List.all_cons, Bool.and_eq_true] at hs
      simp [runScan, hm c rest hs.1, ih rest hs.2]

/-- Lookbehind variant of `runScan_id`. -/
theorem runScanPrev_id (m : Option Char → Str → Option (Nat × Str)) (P : Char → Bool)
    (hm : ∀ prev c rest, P c = true → m prev (c :: rest) = none) :
    ∀ (fuel : Nat) (prev : Option Char) (s : Str), s.all P = true →
      runScanPrev m fuel prev s = s := by
  intro fuel
  induction fuel with
  | zero => intro prev s _; rfl
  | succ f ih =>
    intro prev s hs
    cases s with
    | nil => rfl
    | cons c rest =>
      rw [List.all_cons, Bool.and_eq_true] at hs
      simp [runScanPrev, hm prev c rest hs.1, ih (some c) rest hs.2]

/-- No inline matcher fires on a safe character. -/
theorem mImage_none_safe (c : Char) (rest : Str) (hc : safeChar c = true) :
    mImage (c :: rest) = none := by
  simp [mImage, safeChar_not c '!' hc (by decide)]

/-- No inline matcher fires on a safe character. -/
theorem mFootnoteRef_none_safe (c : Char) (rest : Str) (hc : safeChar c = true) :
    mFootnoteRef (c :: rest) = none := by
  simp [mFootnoteRef, safeChar_not c '[' hc (by decide)]

/-- No inline matcher fires on a safe character. -/
theorem mLink_none_safe (c : Char) (rest : Str) (hc : safeChar c = true) :
    mLink (c :: rest) = none := by
  simp [mLink, safeChar_not c '[' hc (by decide)]

/-- No inline matcher fires on a safe character. -/
theorem mTriple_none_safe (c : Char) (rest : Str) (hc : safeChar c = true) :
    mTriple (c :: rest) = none := by
  simp [mTriple, safeChar_not c '*' hc (by decide)]

/-- No inline matcher fires on a safe character. -/
theorem mBold_none_safe (c : Char) (rest : Str) (hc : safeChar c = true) :
    mBold (c :: rest) = none := by
  simp [mBold, safeChar_not c '*' hc (by decide)]

/-- No inline matcher fires on a safe character. -/
theorem mUBold_none_safe (prev : Option Char) (c : Char) (rest : Str)
    (hc : safeChar c = true) : mUBold prev (c :: rest) = none := by
  simp [mUBold, safeChar_not c '_' hc (by decide)]

/-- No inline matcher fires on a safe character. -/
theorem mItalicAst_none_safe (prev : Option Char) (c : Char) (rest : Str)
    (hc : safeChar c = true) : mItalicAst prev (c :: rest) = none := by
  simp [mItalicAst, safeChar_not c '*' hc (by decide)]

/-- No inline matcher fires on a safe character. -/
theorem mItalicU_none_safe (prev : Option Char) (c : Char) (rest : Str)
    (hc : safeChar c = true) : mItalicU prev (c :: rest) = none := by
  simp [mItalicU, safeChar_not c '_' hc (by decide)]

/-- No inline matcher fires on a safe character. -/
theorem mCode_none_safe (c : Char) (rest : Str) (hc : safeChar c = true) :
    mCode (c :: rest) = none := by
  simp [mCode, safeChar_not c '`' hc (by decide)]

/-- No inline matcher fires on a safe character. -/
theorem mMath_none_safe (c : Char) (rest : Str) (hc : safeChar c = true) :
    mMath (c :: rest) = none := by
  simp [mMath, safeChar_not c '$' hc (by decide)]

/-- No inline matcher fires on a safe character. -/
theorem mStrike_none_safe (c : Char) (rest : Str) (hc : safeChar c = true) :
    mStrike (c :: rest) = none := by
  simp [mStrike, safeChar_not c '~' hc (by decide)]

/-- No inline matcher fires on a safe character. -/
theorem mRestoreEsc_none_safe (esc : List Char) (c : Char) (rest : Str)
    (hc : safeChar c = true) : mRestoreEsc esc (c :: rest) = none := by
  simp [mRestoreEsc, safeChar_not c '\x00' hc (by decide)]

/-- Single-character replacement fixes strings without the character. -/
theorem repC_id (c : Char) (r : Str) :
    ∀ (l : Str), l.all (fun x => x != c) = true → repC c r l = l := by
  intro l
  induction l with
  | nil => intro _; rfl
  | cons x xs ih =>
    intro h
    rw [List.all_cons, Bool.and_eq_true] at h
    have hx : ¬ x = c := by simpa [bne_iff_ne] using h.1
    simp [repC, hx, ih h.2]

/-- `escapeHtml` fixes safe strings. -/
theorem escapeHtml_safe (l : Str) (h : l.all safeChar = true) : escapeHtml l = l := by
  unfold escapeHtml
  rw [repC_id _ _ _ (safe_all_ne l h '&' (by decide)),
    repC_id _ _ _ (safe_all_ne l h '<' (by decide)),
    repC_id _ _ _ (safe_all_ne l h '>' (by decide)),
    repC_id _ _ _ (safe_all_ne l h '"' (by decide)),
    repC_id _ _ _ (safe_all_ne l h '\'' (by decide))]

/-- Escape extraction fixes strings without a backslash. -/
theorem extractEscapes_id :
    ∀ (l : Str) (k : Nat), l.all (fun x => x != '\\') = true →
      extractEscapes l k = (l, []) := by
  intro l
  induction l with
  | nil => intro k _; rfl
  | cons c cs ih =>
    intro k h
    rw [List.all_cons, Bool.and_eq_true] at h
    have hc : ¬ c = '\\' := by simpa [bne_iff_ne] using h.1
    cases cs with
    | nil => rfl
    | cons d rest2 => simp [extractEscapes, hc, ih k h.2]

/-- The whole inline pipeline fixes safe text. -/
theorem styleInline_safe (l : Str) (h : l.all safeChar = true) : styleInline l = l := by
  cases l with
  | nil => rfl
  | cons c cs =>
    have hesc : extractEscapes (c :: cs) 0 = (c :: cs, []) :=
      extractEscapes_id _ _ (safe_all_ne _ h '\\' (by decide))
    have hhtml : escapeHtml (c :: cs) = c :: cs := escapeHtml_safe _ h
    have s1 : scanAll mImage (c :: cs) = c :: cs :=
      runScan_id mImage safeChar (fun a r ha => mImage_none_safe a r ha) _ _ h
    have s2 : scanAll mFootnoteRef (c :: cs) = c :: cs :=
      runScan_id mFootnoteRef safeChar (fun a r ha => mFootnoteRef_none_safe a r ha) _ _ h
    have s3 : scanAll mLink (c :: cs) = c :: cs :=
      runScan_id mLink safeChar (fun a r ha => mLink_none_safe a r ha) _ _ h
    have s4 : scanAll mTriple (c :: cs) = c :: cs :=
      runScan_id mTriple safeChar (fun a r ha => mTriple_none_safe a r ha) _ _ h
    have s5 : scanAll mBold (c :: cs) = c :: cs :=
      runScan_id mBold safeChar (fun a r ha => mBold_none_safe a r ha) _ _ h
    have s6 : scanPrevAll mUBold (c :: cs) = c :: cs :=
      runScanPrev_id mUBold safeChar (fun p a r ha => mUBold_none_safe p a r ha) _ _ _ h
    have s7 : scanPrevAll mItalicAst (c :: cs) = c :: cs :=
      runScanPrev_id mItalicAst safeChar (fun p a r ha => mItalicAst_none_safe p a r ha) _ _ _ h
    have s8 : scanPrevAll mItalicU (c :: cs) = c :: cs :=
      runScanPrev_id mItalicU safeChar (fun p a r ha => mItalicU_none_safe p a r ha) _ _ _ h
    have s9 : repC '\x01' ['*'] (c :: cs) = c :: cs :=
      repC_id _ _ _ (safe_all_ne _ h '\x01' (by decide))
    have s10 : repC '\x02' ['_'] (c :: cs) = c :: cs :=
      repC_id _ _ _ (safe_all_ne _ h '\x02' (by decide))
    have s11 : scanAll mCode (c :: cs) = c :: cs :=
      runScan_id mCode safeChar (fun a r ha => mCode_none_safe a r ha) _ _ h
    have s12 : scanAll mMath (c :: cs) = c :: cs :=
      runScan_id mMath safeChar (fun a r ha => mMath_none_safe a r ha) _ _ h
    have s13 : scanAll mStrike (c :: cs) = c :: cs :=
      runScan_id mStrike safeChar (fun a r ha => mStrike_none_safe a r ha) _ _ h
    have s14 : scanAll (mRestoreEsc []) (c :: cs) = c :: cs :=
      runScan_id (mRestoreEsc []) safeChar (fun a r ha => mRestoreEsc_none_safe [] a r ha) _ _ h
    simp only [styleInline, hesc, hhtml, s1, s2, s3, s4, s5, s6, s7, s8, s9, s10, s11,
      s12, s13, s14]


/-! ## The line classifier leaves safe text as a paragraph -/

/-- A safe non-whitespace character is alphanumeric. -/
theorem alnum_of_safe_notspace (d : Char) (hs : safeChar d = true)
    (hns : isJsSpace d = false) : isAlnumA d = true := by
  rcases safeChar_cases d hs with h | rfl
  · exact h
  · exact absurd hns (by decide)

/-- List markers are not alphanumeric. -/
theorem ulMarker_false_of_alnum (d : Char) (h : isAlnumA d = true) :
    isUlMarker d = false := by
  simp only [isUlMarker, Bool.or_eq_false_iff, decide_eq_false_iff_not]
  refine ⟨⟨?_, ?_⟩, ?_⟩ <;> (intro he; subst he; exact absurd h (by decide))

/-- The head of the whitespace-stripped part of a safe line, when present,
is safe and alphanumeric. -/
theorem dropSpaces_head_alnum (l : Str) (h : l.all safeChar = true) (d : Char)
    (rest : Str) (hD : l.dropWhile isJsSpace = d :: rest) : isAlnumA d = true := by
  have hall := all_true_dropWhile safeChar isJsSpace l h
  rw [hD] at hall
  simp only [List.all_cons, Bool.and_eq_true] at hall
  exact alnum_of_safe_notspace d hall.1 (dropWhile_head_false _ _ _ _ hD)

/-- The task pattern never matches a safe line. -/
theorem taskMatch_safe (l : Str) (h : l.all safeChar = true) : taskMatch l = none := by
  simp only [taskMatch]
  rw [drop_takeWhile]
  cases hD : l.dropWhile isJsSpace with
  | nil => rfl
  | cons d rest =>
    simp [ulMarker_false_of_alnum d (dropSpaces_head_alnum l h d rest hD)]

/-- The bullet pattern never matches a safe line. -/
theorem ulMatch_safe (l : Str) (h : l.all safeChar = true) : ulMatch l = none := by
  simp only [ulMatch]
  rw [drop_takeWhile]
  cases hD : l.dropWhile isJsSpace with
  | nil => rfl
  | cons d rest =>
    simp [ulMarker_false_of_alnum d (dropSpaces_head_alnum l h d rest hD)]

/-- The ordered-list pattern never matches a safe line (no dot after the
digit run). -/
theorem olMatch_safe (l : Str) (h : l.all safeChar = true) : olMatch l = none := by
  simp only [olMatch]
  rw [drop_takeWhile, drop_takeWhile]
  cases hds : (l.dropWhile isJsSpace).takeWhile isAsciiDigit with
  | nil => rfl
  | cons d0 ds =>
    cases hD2 : (l.dropWhile isJsSpace).dropWhile isAsciiDigit with
    | nil => rfl
    | cons e r1 =>
      have hse : safeChar e = true := by
        have hall := all_true_dropWhile safeChar isAsciiDigit _
          (all_true_dropWhile safeChar isJsSpace l h)
        rw [hD2] at hall
        simp only [List.all_cons, Bool.and_eq_true] at hall
        exact hall.1
      simp [safeChar_not e '.' hse (by decide)]

/-- The horizontal-rule test fails on safe lines. -/
theorem hrLineTest_safe (l : Str) (h : l.all safeChar = true) : hrLineTest l = false := by
  have ht : (trimJs l).all safeChar = true := by
    unfold trimJs
    rw [List.all_reverse]
    refine all_true_dropWhile _ _ _ ?_
    rw [List.all_reverse]
    exact all_true_dropWhile _ _ _ h
  cases hT : trimJs l with
  | nil => simp [hrLineTest, hT]
  | cons c rest =>
    rw [hT] at ht
    simp only [List.all_cons, Bool.and_eq_true] at ht
    have h1 : hrChar c = false := by
      simp only [hrChar, Bool.or_eq_false_iff, decide_eq_false_iff_not]
      exact ⟨⟨safeChar_not c '-' ht.1 (by decide), safeChar_not c '_' ht.1 (by decide)⟩,
        safeChar_not c '*' ht.1 (by decide)⟩
    simp [hrLineTest, hT, h1]

/-- The full classifier leaves a safe line unchanged (paragraph branch with
an inert inline pass). -/
theorem styleLine_safe (l : Str) (h : l.all safeChar = true) : styleLine l = l := by
  cases l with
  | nil => rfl
  | cons c cs =>
    have hc : safeChar c = true := by
      simp only [List.all_cons, Bool.and_eq_true] at h
      exact h.1
    have hall : (c :: cs).all safeChar = true := h
    have hH : headingMatch (c :: cs) = none := by
      simp [headingMatch, List.takeWhile_cons, safeChar_beq_false c '#' hc (by decide)]
    have hA : alertFullMatch (c :: cs) = none := by
      simp [alertFullMatch, safeChar_not c '>' hc (by decide)]
    have hQ : quoteMatch (c :: cs) = none := by
      simp [quoteMatch, List.takeWhile_cons, safeChar_beq_false c '>' hc (by decide)]
    have hT := taskMatch_safe _ hall
    have hU := ulMatch_safe _ hall
    have hO := olMatch_safe _ hall
    have hHr := hrLineTest_safe _ hall
    have hTab : tableTest (c :: cs) = false := by
      simp [tableTest, safeChar_not c '|' hc (by decide)]
    have hD : defMatch (c :: cs) = none := by
      simp [defMatch, safeChar_not c ':' hc (by decide)]
    have hF : footnoteDefMatch (c :: cs) = none := by
      simp [footnoteDefMatch, safeChar_not c '[' hc (by decide)]
    rw [show styleLine (c :: cs) = styleInline (c :: cs) from by
      simp [styleLine, hH, hA, hQ, hT, hU, hO, hHr, hTab, hD, hF]]
    exact styleInline_safe _ hall


/-! ## Joining back the split lines -/

/-- `joinLines` after `consHead` prepends the character. -/
theorem joinLines_consHead (c : Char) (h : Str) (t : List Str) :
    joinLines (consHead c (h :: t)) = c :: joinLines (h :: t) := by
  cases t <;> rfl

/-- `joinLines` inverts `splitLines`. -/
theorem joinLines_splitLines (s : Str) : joinLines (splitLines s) = s := by
  induction s with
  | nil => rfl
  | cons c cs ih =>
    by_cases hc : c = '\n'
    · subst hc
      rw [splitLines, if_pos rfl,
        joinLines_cons_of_ne_nil [] _ (splitLines_ne_nil cs), ih]
      rfl
    · rw [splitLines, if_neg hc]
      obtain ⟨h, t, hsplit⟩ : ∃ h t, splitLines cs = h :: t := by
        cases hs : splitLines cs with
        | nil => exact absurd hs (splitLines_ne_nil cs)
        | cons h t => exact ⟨h, t, rfl⟩
      rw [hsplit, joinLines_consHead, ← hsplit, ih]

/-! ## The two renderer passes on round-trip-safe documents -/

/-- A `classOK` line is neither fence, alert header, alert continuation,
nor blockquote for the first pass. -/
theorem classOK_head (l : Str) (h : classOK l = true) :
    fenceLine l = false ∧ alertFullMatch l = none ∧
    (∀ c cs, l = c :: cs → (c == '>') = false) ∧
    mkPlainInfo l = { line := l } := by
  cases l with
  | nil => exact ⟨rfl, rfl, fun c cs hc => by simp at hc, rfl⟩
  | cons c cs =>
    have hc : c ≠ '`' ∧ c ≠ '>' := by
      simp only [classOK, Bool.or_eq_true] at h
      rcases h with hs | hh
      · have hc1 : safeChar c = true := by
          simp only [List.all_cons, Bool.and_eq_true] at hs
          exact hs.1
        exact ⟨safeChar_not c '`' hc1 (by decide), safeChar_not c '>' hc1 (by decide)⟩
      · by_cases hch : c = '#'
        · subst hch; exact ⟨by decide, by decide⟩
        · exfalso
          simp only [headingLineOK, Bool.and_eq_true] at hh
          have hrun := hh.1.1
          have hb : (c == '#') = false := by simpa using hch
          simp [List.takeWhile_cons, hb] at hrun
    have hbq : (c == '>') = false := by simpa using hc.2
    refine ⟨?_, ?_, fun c' cs' hc' => by cases hc'; exact hbq, ?_⟩
    · have hbt : ('`' == c) = false := by
        simpa [beq_eq_false_iff_ne] using (Ne.symm hc.1)
      rw [show fenceLine (c :: cs) = (('`' == c) && startsL ['`', '`'] cs) from rfl, hbt]
      rfl
    · simp [alertFullMatch, hc.2]
    · simp [mkPlainInfo, isBlockquoteLine, hbq]

/-- On a `classOK` document the first pass classifies every line as a
plain paragraph, whatever the incoming alert state. -/
theorem pass1_classOK (lines : List Str) (h : ∀ l ∈ lines, classOK l = true) :
    ∀ alert, pass1 lines false alert = lines.map (fun l => { line := l }) := by
  induction lines with
  | nil => intro alert; rfl
  | cons a as ih =>
    intro alert
    have ih' := ih (fun l hl => h l (by simp [hl]))
    obtain ⟨hf, hA, hgt, hmk⟩ := classOK_head a (h a (by simp))
    cases a with
    | nil => cases alert <;> simp [pass1, hf, hA, ih' none, hmk]
    | cons c cs =>
      have hb : (c == '>') = false := hgt c cs rfl
      cases alert <;> simp [pass1, hf, hA, hb, hmk, ih' none]

/-- On plain paragraph infos the second pass emits the regular markup. -/
theorem pass2_plain (lines : List Str) :
    ∀ (prev : Option LineInfo) (inCode : Bool),
      pass2 prev (lines.map (fun l => ({ line := l } : LineInfo))) inCode
        = lines.map regularHtml := by
  induction lines with
  | nil => intro prev inCode; rfl
  | cons a as ih =>
    intro prev inCode
    simp [pass2, ih]


/-! ## Reading the text content back out of the generated markup -/


/-- Safe characters are plain for the reader. -/
theorem tcPlain_of_safe (c : Char) (h : safeChar c = true) : tcPlain c = true := by
  simp [tcPlain, safeChar_beq_false c '<' h (by decide),
    safeChar_beq_false c '&' h (by decide)]

/-- Safe strings are plain for the reader. -/
theorem tcPlain_all_of_safe (l : Str) (h : l.all safeChar = true) :
    l.all tcPlain = true := by
  simp only [List.all_eq_true] at *
  exact fun c hc => tcPlain_of_safe c (h c hc)

/-- The reader copies a plain prefix. -/
theorem tcS_txt_plain (p : Str) (hp : p.all tcPlain = true) (r : Str) :
    tcS .txt (p ++ r) = p ++ tcS .txt r := by
  induction p with
  | nil => rfl
  | cons c cs ih =>
    rw [List.all_cons, Bool.and_eq_true] at hp
    have h12 := hp.1
    simp only [tcPlain, Bool.and_eq_true, Bool.not_eq_true', beq_eq_false_iff_ne] at h12
    simp [tcS, h12.1, h12.2, ih hp.2]

/-- An opening angle bracket switches the reader into tag mode. -/
theorem tcS_txt_tag_open (X : Str) : tcS .txt ('<' :: X) = tcS .tag X := rfl

/-- In tag mode the reader skips characters other than `'>'`. -/
theorem tcS_tag_no_gt (body : Str) (hb : body.all (fun c => !(c == '>')) = true) :
    ∀ X, tcS .tag (body ++ X) = tcS .tag X := by
  induction body with
  | nil => intro X; rfl
  | cons c cs ih =>
    intro X
    rw [List.all_cons, Bool.and_eq_true] at hb
    have h1 : ¬ c = '>' := by simpa using hb.1
    simp [tcS, h1, ih hb.2]

/-- A closing angle bracket returns the reader to text mode. -/
theorem tcS_tag_close (X : Str) : tcS .tag ('>' :: X) = tcS .txt X := rfl

/-- A double quote inside a tag is skipped. -/
theorem tcS_tag_quote (X : Str) : tcS .tag ('"' :: X) = tcS .tag X := rfl

/-- A whole tag with a `'>'`-free body contributes nothing. -/
theorem tcS_txt_skipTag (body : Str) (hb : body.all (fun c => !(c == '>')) = true)
    (X : Str) : tcS .txt ('<' :: (body ++ '>' :: X)) = tcS .txt X := by
  rw [tcS_txt_tag_open, tcS_tag_no_gt body hb, tcS_tag_close]

/-- The decimal rendering of a number contains no `'>'`. -/
theorem natDigits_no_gt (n : Nat) :
    (natDigits n).all (fun c => !(c == '>')) = true := by
  have h := natDigits_digits n
  simp only [List.all_eq_true] at *
  intro c hc
  simpa using digit_ne_gt c (h c hc)

/-- A hash run is plain for the reader. -/
theorem tcPlain_replicate_hash (n : Nat) :
    (List.replicate n '#').all tcPlain = true := by
  simp only [List.all_eq_true, List.mem_replicate]
  intro c hc
  rw [hc.2]
  decide

/-- The line wrapper of a non-empty regular line: the reader passes over
the two concrete tags of the prefix. -/
theorem tc_wrap_open (X : Str) :
    tcS .txt (str "<div class=\"line" ++ (str "\"><span class=\"line-content\">" ++ X))
      = tcS .txt X := rfl

/-- The closing wrapper contributes nothing. -/
theorem tc_wrap_close : tcS .txt (str "</span></div>") = [] := rfl

/-- The reader on the heading markup recovers the hashes, the separating
space and the heading text. -/
theorem tcS_txt_heading (n : Nat) (t : Str) (ht : t.all tcPlain = true) (R : Str) :
    tcS .txt (str "<span class=\"md-heading md-h" ++ (natDigits n ++
      (str "\"><span class=\"md-syntax\">" ++ (List.replicate n '#' ++
        (str "</span> " ++ (t ++ (str "</span>" ++ R)))))))
      = List.replicate n '#' ++ ' ' :: (t ++ tcS .txt R) := by
  rw [show str "<span class=\"md-heading md-h"
      = '<' :: str "span class=\"md-heading md-h" from rfl]
  rw [show str "\"><span class=\"md-syntax\">"
      = '"' :: '>' :: str "<span class=\"md-syntax\">" from rfl]
  rw [List.cons_append, tcS_txt_tag_open,
    tcS_tag_no_gt (str "span class=\"md-heading md-h") (by decide),
    tcS_tag_no_gt (natDigits n) (natDigits_no_gt n),
    List.cons_append, List.cons_append, tcS_tag_quote, tcS_tag_close]
  rw [show ∀ X, str "<span class=\"md-syntax\">" ++ X
      = '<' :: (str "span class=\"md-syntax\"" ++ '>' :: X) from fun X => rfl]
  rw [tcS_txt_skipTag _ (by decide), tcS_txt_plain _ (tcPlain_replicate_hash n)]
  rw [show ∀ X, str "</span> " ++ X = '<' :: (str "/span" ++ '>' :: (' ' :: X))
      from fun X => rfl]
  rw [tcS_txt_skipTag _ (by decide)]
  rw [show ∀ X, tcS .txt (' ' :: X) = ' ' :: tcS .txt X from fun X => rfl]
  rw [tcS_txt_plain t ht]
  rw [show ∀ X, str "</span>" ++ X = '<' :: (str "/span" ++ '>' :: X) from fun X => rfl]
  rw [tcS_txt_skipTag _ (by decide)]


/-! ## Per-line extraction identities -/

/-- Extraction inverts rendering on a non-empty safe line. -/
theorem extractLine_safe (l : Str) (h : l.all safeChar = true) (hne : l ≠ []) :
    extractLine (regularHtml l) = l := by
  have hs : styleLine l = l := styleLine_safe l h
  unfold extractLine textContentL
  simp only [regularHtml, hs]
  rw [if_neg hne, if_neg hne]
  simp only [List.append_assoc, List.nil_append, List.append_nil]
  rw [tc_wrap_open, tcS_txt_plain l (tcPlain_all_of_safe l h), tc_wrap_close,
    List.append_nil]
  exact removeZWSP_id l (safe_all_ne l h zwsp (by decide))

/-- The classifier's output on a line with a heading match. -/
theorem styleLine_heading_eq (x : Char) (xs : Str) (n : Nat) (t : Str)
    (hH : headingMatch (x :: xs) = some (n, t)) (hI : styleInline t = t) :
    styleLine (x :: xs) = str "<span class=\"md-heading md-h" ++ natDigits n
      ++ str "\"><span class=\"md-syntax\">" ++ List.replicate n '#' ++ str "</span> "
      ++ t ++ str "</span>" := by
  simp only [styleLine, hH, hI]

/-- The heading pattern on a canonical heading line. -/
theorem headingMatch_canonical (n : Nat) (t : Str) (hn1 : 1 ≤ n) (hn6 : n ≤ 6)
    (ht : t.all safeChar = true) :
    headingMatch (List.replicate n '#' ++ ' ' :: t) = some (n, t) := by
  have htw : (List.replicate n '#' ++ ' ' :: t).takeWhile (fun c => c == '#')
      = List.replicate n '#' := by
    rw [takeWhile_hash_replicate]
    simp [List.takeWhile_cons]
  have hdr : (List.replicate n '#' ++ ' ' :: t).drop n = ' ' :: t :=
    List.drop_left' (List.length_replicate n '#')
  simp only [headingMatch, htw, List.length_replicate]
  rw [if_pos ⟨hn1, hn6⟩, hdr]
  simp [noLineTerm_of_safe t ht, show isJsSpace ' ' = true from by decide]

/-- Extraction inverts rendering on a canonical heading line. -/
theorem extractLine_heading_canonical (n : Nat) (t : Str) (hn1 : 1 ≤ n) (hn6 : n ≤ 6)
    (ht : t.all safeChar = true) :
    extractLine (regularHtml (List.replicate n '#' ++ ' ' :: t))
      = List.replicate n '#' ++ ' ' :: t := by
  obtain ⟨m, rfl⟩ : ∃ m, n = m + 1 := ⟨n - 1, by omega⟩
  have hH := headingMatch_canonical (m + 1) t hn1 hn6 ht
  have hform : List.replicate (m + 1) '#' ++ ' ' :: t
      = '#' :: (List.replicate m '#' ++ ' ' :: t) := by
    simp [List.replicate_succ]
  rw [hform] at hH ⊢
  have hSL := styleLine_heading_eq '#' (List.replicate m '#' ++ ' ' :: t) (m + 1) t hH
    (styleInline_safe t ht)
  have hhne : str "<span class=\"md-heading md-h" ++ natDigits (m + 1)
      ++ str "\"><span class=\"md-syntax\">" ++ List.replicate (m + 1) '#' ++ str "</span> "
      ++ t ++ str "</span>" ≠ [] := by
    rw [show str "<span class=\"md-heading md-h"
        = '<' :: str "span class=\"md-heading md-h" from rfl]
    simp
  unfold extractLine textContentL
  simp only [regularHtml, hSL]
  rw [if_neg hhne, if_neg hhne]
  simp only [List.append_assoc, List.nil_append, List.append_nil]
  rw [tc_wrap_open, tcS_txt_heading (m + 1) t (tcPlain_all_of_safe t ht)
    (str "</span></div>"), tc_wrap_close, List.append_nil]
  have h1 : (List.replicate (m + 1) '#').all (fun c => c != zwsp) = true := by
    simp only [List.all_eq_true, List.mem_replicate]
    intro c hc
    rw [hc.2]
    decide
  rw [removeZWSP_id]
  · exact hform.symm
  · simp only [List.all_append, List.all_cons, Bool.and_eq_true]
    exact ⟨h1, by decide, safe_all_ne t ht zwsp (by decide)⟩

/-- Decomposition of a `headingLineOK` line into its canonical parts. -/
theorem headingLineOK_decomp (l : Str) (h : headingLineOK l = true) :
    ∃ n t, l = List.replicate n '#' ++ ' ' :: t ∧ 1 ≤ n ∧ n ≤ 6 ∧
      t.all safeChar = true := by
  simp only [headingLineOK, Bool.and_eq_true, decide_eq_true_eq] at h
  obtain ⟨⟨hne, hlen⟩, hmatch⟩ := h
  refine ⟨(l.takeWhile (fun c => c == '#')).length, ?_⟩
  split at hmatch
  · rename_i c t heq
    rw [Bool.and_eq_true, beq_iff_eq] at hmatch
    obtain ⟨hceq, ht⟩ := hmatch
    subst hceq
    refine ⟨t, ?_, ?_, hlen, ht⟩
    · have hdw : l.dropWhile (fun c => c == '#') = ' ' :: t := by
        rw [← drop_takeWhile]
        exact heq
      have hrep : l.takeWhile (fun c => c == '#')
          = List.replicate (l.takeWhile (fun c => c == '#')).length '#' := by
        apply List.eq_replicate_of_mem
        intro b hb
        simpa using List.mem_takeWhile_imp hb
      calc l = l.takeWhile (fun c => c == '#') ++ l.dropWhile (fun c => c == '#') :=
            (List.takeWhile_append_dropWhile _ l).symm
        _ = _ := by rw [hdw, ← hrep]
    · cases htk : l.takeWhile (fun c => c == '#') with
      | nil => rw [htk] at hne; simp at hne
      | cons _ _ => simp [htk]
  · cases hmatch

/-- Extraction inverts rendering line by line on the proved class. -/
theorem extractLine_classOK (l : Str) (h : classOK l = true) :
    extractLine (regularHtml l) = l := by
  have h' := h
  simp only [classOK, Bool.or_eq_true] at h'
  rcases h' with hs | hh
  · cases l with
    | nil => rfl
    | cons c cs => exact extractLine_safe (c :: cs) hs (by simp)
  · obtain ⟨n, t, rfl, hn1, hn6, ht⟩ := headingLineOK_decomp l hh
    exact extractLine_heading_canonical n t hn1 hn6 ht


/-- C1 (amended): extraction of the rendered document reproduces the
document exactly — hence also modulo trailing-whitespace normalization —
for every document whose lines are `classOK`: plain alphanumeric/space
text (possibly empty) or ATX headings of such text.  The universal claim
is refuted by `c1_roundtrip_counterexample`: marker lines re-canonicalize
mid-line, which trailing-whitespace normalization does not absorb. -/
theorem c1_roundtrip_amended (md : Str)
    (h : ∀ l ∈ splitLines md, classOK l = true) :
    extractMarkdown (renderLines md) = md := by
  unfold renderLines extractMarkdown
  rw [pass1_classOK (splitLines md) h none, pass2_plain, List.map_map]
  have hmap : (splitLines md).map (extractLine ∘ regularHtml)
      = (splitLines md).map (fun l => l) :=
    List.map_congr_left (fun l hl => extractLine_classOK l (h l hl))
  rw [hmap, List.map_id']
  exact joinLines_splitLines md

/-- Witness for the amended C1 theorem at a concrete two-block document. -/
theorem c1_roundtrip_amended_witness :
    (∀ l ∈ splitLines (str "# Title\n\nhello world"), classOK l = true) ∧
    extractMarkdown (renderLines (str "# Title\n\nhello world"))
      = str "# Title\n\nhello world" :=
  ⟨by decide, c1_roundtrip_amended _ (by decide)⟩

end MdEditor

